import Mathlib

/-
  Verification of the Granular Access Control engine (GranularAccess.ts).

  The development shallowly embeds the data model and the operations of the
  engine: DocActions, UserActions, the bundle lifecycle state, the outgoing
  row/column filters (_pruneRows, _pruneColumns, _filterRowsAndCells), the
  metadata censor (CensorshipInfo) and the ingress checks.  Rule evaluation
  (PermissionInfo / ACLRuleCollection, which live outside this file's source)
  is abstracted as an oracle assigning permission verdicts to tables, columns
  and records; every theorem quantifies over that oracle or instantiates it
  concretely.
-/

namespace GAC

/-- Cell values stored in table columns (CellValue). -/
inductive Cell where
  | null
  | str (s : String)
  | num (n : Int)
deriving DecidableEq, Repr

abbrev ColValues := List (String × Cell)

abbrev BulkColValues := List (String × List Cell)

/-- A columnar table snapshot: the payload of a TableData action
`[TableData, tableId, rowIds, colValues]`; row `i` has id `rowIds[i]` and
cell `colValues[colId][i]`. -/
structure TableDataAction where
  tableId : String
  rowIds : List Nat
  columns : BulkColValues
deriving DecidableEq, Repr

/-- DocAction variants: the row operations and the schema operations. -/
inductive DocAction where
  | addRecord (tableId : String) (rowId : Nat) (colValues : ColValues)
  | bulkAddRecord (tableId : String) (rowIds : List Nat) (colValues : BulkColValues)
  | updateRecord (tableId : String) (rowId : Nat) (colValues : ColValues)
  | bulkUpdateRecord (tableId : String) (rowIds : List Nat) (colValues : BulkColValues)
  | removeRecord (tableId : String) (rowId : Nat)
  | bulkRemoveRecord (tableId : String) (rowIds : List Nat)
  | replaceTableData (tableId : String) (rowIds : List Nat) (colValues : BulkColValues)
  | tableData (tableId : String) (rowIds : List Nat) (colValues : BulkColValues)
  | addTable (tableId : String)
  | removeTable (tableId : String)
  | renameTable (tableId : String) (newTableId : String)
  | addColumn (tableId : String) (colId : String)
  | removeColumn (tableId : String) (colId : String)
  | renameColumn (tableId : String) (colId : String) (newColId : String)
  | modifyColumn (tableId : String) (colId : String)
deriving DecidableEq, Repr

/-- `getTableId`: every action carries its tableId at position 1. -/
def getTableId : DocAction → String
  | .addRecord t _ _ => t
  | .bulkAddRecord t _ _ => t
  | .updateRecord t _ _ => t
  | .bulkUpdateRecord t _ _ => t
  | .removeRecord t _ => t
  | .bulkRemoveRecord t _ => t
  | .replaceTableData t _ _ => t
  | .tableData t _ _ => t
  | .addTable t => t
  | .removeTable t => t
  | .renameTable t _ => t
  | .addColumn t _ => t
  | .removeColumn t _ => t
  | .renameColumn t _ _ => t
  | .modifyColumn t _ => t

/-- `isSchemaAction`: table/column schema operations. -/
def isSchemaAction : DocAction → Bool
  | .addTable _ => true
  | .removeTable _ => true
  | .renameTable _ _ => true
  | .addColumn _ _ => true
  | .removeColumn _ _ => true
  | .renameColumn _ _ _ => true
  | .modifyColumn _ _ => true
  | _ => false

/-- `isDataAction`: actions in ACTION_WITH_TABLE_ID, i.e. the row operations. -/
def isDataAction : DocAction → Bool
  | .addRecord _ _ _ => true
  | .bulkAddRecord _ _ _ => true
  | .updateRecord _ _ _ => true
  | .bulkUpdateRecord _ _ _ => true
  | .removeRecord _ _ => true
  | .bulkRemoveRecord _ _ => true
  | .replaceTableData _ _ _ => true
  | .tableData _ _ _ => true
  | _ => false

/-- Add-like data actions: AddRecord, BulkAddRecord, ReplaceTableData, TableData
(the cases kept as-is in _pruneRows when a row turns from forbidden to allowed). -/
def isAddLikeAction : DocAction → Bool
  | .addRecord _ _ _ => true
  | .bulkAddRecord _ _ _ => true
  | .replaceTableData _ _ _ => true
  | .tableData _ _ _ => true
  | _ => false

/-- Update data actions: UpdateRecord, BulkUpdateRecord. -/
def isUpdateAction : DocAction → Bool
  | .updateRecord _ _ _ => true
  | .bulkUpdateRecord _ _ _ => true
  | _ => false

/-- Removal data actions: RemoveRecord, BulkRemoveRecord. -/
def isRemoveAction : DocAction → Bool
  | .removeRecord _ _ => true
  | .bulkRemoveRecord _ _ => true
  | _ => false

/-- `getRowIdsFromDocAction` (RowAccess): the row ids named by a data action.
Schema actions name no rows. -/
def getRowIdsFromDocAction : DocAction → List Nat
  | .addRecord _ r _ => [r]
  | .bulkAddRecord _ rs _ => rs
  | .updateRecord _ r _ => [r]
  | .bulkUpdateRecord _ rs _ => rs
  | .removeRecord _ r => [r]
  | .bulkRemoveRecord _ rs => rs
  | .replaceTableData _ rs _ => rs
  | .tableData _ rs _ => rs
  | _ => []

/-- `isAclTable`: just _grist_ACLRules and _grist_ACLResources. -/
def isAclTable (tableId : String) : Bool :=
  tableId = "_grist_ACLRules" || tableId = "_grist_ACLResources"

/-- STRUCTURAL_TABLES: the seven key metadata tables needing special handling. -/
def STRUCTURAL_TABLES : List String :=
  ["_grist_Tables", "_grist_Tables_column", "_grist_Views",
   "_grist_Views_section", "_grist_Views_section_field",
   "_grist_ACLResources", "_grist_ACLRules"]

/-- The view of a TableDataAction row as a `TableData` DocAction (they share
the same shape in the source). -/
def TableDataAction.toDocAction (t : TableDataAction) : DocAction :=
  .tableData t.tableId t.rowIds t.columns

/-- Permission verdict values produced by PermissionInfo for the read axis. -/
inductive PermValue where
  | allow
  | deny
  | mixed
  | mixedColumns
deriving DecidableEq, Repr

/-- A row-shaped view of a table snapshot at one index (RecordView), as seen
by the rule predicates: the row id plus its cells. -/
structure RecInfoView where
  id : Nat
  cells : List (String × Cell)
deriving DecidableEq, Repr

/-- The external rule-evaluation system (PermissionInfo over an
ACLRuleCollection, which is outside this source file) abstracted as an
oracle.  `tableRead`/`columnRead` are the verdicts with no record bound;
`rowTableRead`/`rowColumnRead` are the verdicts with `rec` (and possibly
`newRec`) bound, as used by _getForbiddenRows and _filterRowsAndCells. -/
structure PermOracle where
  tableRead : String → PermValue
  columnRead : String → String → PermValue
  rowTableRead : String → Option RecInfoView → Option RecInfoView → PermValue
  rowColumnRead : String → String → Option RecInfoView → Option RecInfoView → PermValue

/-- Errors: ErrorWithCode carries a wire code (ACL_DENY, NEED_RELOAD);
plain JavaScript errors carry only a message. -/
inductive GError where
  | withCode (code : String) (message : String)
  | plain (message : String)
deriving DecidableEq, Repr

/-- Build the RecordView of `data` at index `idx` (cells missing at that
index read as null/undefined). -/
def mkRec (data : TableDataAction) (idx : Nat) : RecInfoView :=
  ⟨data.rowIds.getD idx 0, data.columns.map (fun p => (p.1, p.2.getD idx .null))⟩

/-- `_filterColumns`: drop the columns rejected by the predicate, always
keeping manualSort. -/
def filterColumnsBy (shouldInclude : String → Bool) (data : List (String × α)) :
    List (String × α) :=
  data.filter (fun p => p.1 = "manualSort" || shouldInclude p.1)

/-- `_pruneColumns`: strip denied columns from an action; null when nothing
is left.  The accessCheck here is the non-fatal read check, whose `get` is
just the read verdict. -/
def pruneColumns (a : DocAction) (permInfo : PermOracle) (tableId : String) :
    Option DocAction :=
  match a with
  | .removeRecord _ _ => some a
  | .bulkRemoveRecord _ _ => some a
  | .addRecord t r cols =>
      let na := filterColumnsBy (fun c => !(permInfo.columnRead tableId c = .deny)) cols
      if na.isEmpty then none else some (.addRecord t r na)
  | .updateRecord t r cols =>
      let na := filterColumnsBy (fun c => !(permInfo.columnRead tableId c = .deny)) cols
      if na.isEmpty then none else some (.updateRecord t r na)
  | .bulkAddRecord t rs cols =>
      let na := filterColumnsBy (fun c => !(permInfo.columnRead tableId c = .deny)) cols
      if na.isEmpty then none else some (.bulkAddRecord t rs na)
  | .bulkUpdateRecord t rs cols =>
      let na := filterColumnsBy (fun c => !(permInfo.columnRead tableId c = .deny)) cols
      if na.isEmpty then none else some (.bulkUpdateRecord t rs na)
  | .replaceTableData t rs cols =>
      let na := filterColumnsBy (fun c => !(permInfo.columnRead tableId c = .deny)) cols
      if na.isEmpty then none else some (.replaceTableData t rs na)
  | .tableData t rs cols =>
      let na := filterColumnsBy (fun c => !(permInfo.columnRead tableId c = .deny)) cols
      if na.isEmpty then none else some (.tableData t rs na)
  | .addColumn _ c =>
      if permInfo.columnRead tableId c = .deny then none else some a
  | .removeColumn _ c =>
      if permInfo.columnRead tableId c = .deny then none else some a
  | .renameColumn _ c _ =>
      if permInfo.columnRead tableId c = .deny then none else some a
  | .modifyColumn _ c =>
      if permInfo.columnRead tableId c = .deny then none else some a
  | _ => some a

/-! ## Row pruning (_pruneRows and helpers) -/

/-- Iteration order of a JavaScript `Set` built from a list: first occurrence
of each element, in insertion order (`new Set(getRowIdsFromDocAction(action))`). -/
def insertionDedup (l : List Nat) : List Nat :=
  l.foldl (fun acc x => if x ∈ acc then acc else acc ++ [x]) []

/-- Last index of `x` in `l` counting from `base`, if any. -/
def lastIdxOfAux (l : List Nat) (x : Nat) (base : Nat) : Option Nat :=
  match l with
  | [] => none
  | y :: ys =>
      match lastIdxOfAux ys x (base + 1) with
      | some k => some k
      | none => if y = x then some base else none

/-- Last index of `x` in `l`, if any.  A JavaScript `Map` built from
`(rowId, idx)` pairs keeps the last binding of a duplicated key. -/
def lastIdxOf (l : List Nat) (x : Nat) : Option Nat :=
  lastIdxOfAux l x 0

/-- `_getForbiddenRows`: among the supplied ids, those whose row (looked up in
`data`) has per-row read access deny for this viewer.  The record is bound as
`rec`; no `newRec` is supplied. -/
def getForbiddenRows (o : PermOracle) (data : TableDataAction) (ids : List Nat) :
    List Nat :=
  (List.range data.rowIds.length).filterMap (fun idx =>
    if data.rowIds.getD idx 0 ∈ ids then
      if o.rowTableRead data.tableId (some (mkRec data idx)) none = .deny then
        some (data.rowIds.getD idx 0)
      else none
    else none)

/-- The `removals` set accumulated by the classification loop of _pruneRows:
ids forbidden both before and after; ids going forbidden → allowed unless the
action is add-like; ids going allowed → forbidden unless the action is a
removal.  The loop adds each id independently, so the set (in insertion
order) is a filter of the iterated ids. -/
def rowRemovals (action : DocAction) (ids fb fa : List Nat) : List Nat :=
  ids.filter (fun id =>
    (decide (id ∈ fb) && decide (id ∈ fa)) ||
    (decide (id ∈ fb) && !decide (id ∈ fa) && !isAddLikeAction action) ||
    (!decide (id ∈ fb) && decide (id ∈ fa) && !isRemoveAction action))

/-- The `forceAdds` set of _pruneRows: rows that turned from forbidden to
allowed, re-emitted only for update actions. -/
def rowForceAdds (action : DocAction) (ids fb fa : List Nat) : List Nat :=
  ids.filter (fun id =>
    decide (id ∈ fb) && !decide (id ∈ fa) && isUpdateAction action)

/-- The `forceRemoves` set of _pruneRows: rows that turned from allowed to
forbidden, re-emitted only for update actions. -/
def rowForceRemoves (action : DocAction) (ids fb fa : List Nat) : List Nat :=
  ids.filter (fun id =>
    !decide (id ∈ fb) && decide (id ∈ fa) && isUpdateAction action)

/-- Prune, positionally and in lockstep with a row-id list, the values kept
are those whose row id survives the kill predicate (`_removeRowsAt` via the
mask computed in `_removeRows`). -/
def pruneVals (rs : List Nat) (vals : List Cell) (kill : Nat → Bool) : List Cell :=
  ((rs.zip vals).filter (fun p => !kill p.1)).map (fun p => p.2)

/-- `_removeRows`: remove a set of rows from a DocAction, returning null when
the action becomes empty.  Bulk shapes are copied; singleton shapes return
the original action object when the row survives. -/
def removeRows (a : DocAction) (rowIds : List Nat) : Option DocAction :=
  if isSchemaAction a then some a else
  match a with
  | .addRecord _ r _ => if r ∈ rowIds then none else some a
  | .updateRecord _ r _ => if r ∈ rowIds then none else some a
  | .removeRecord _ r => if r ∈ rowIds then none else some a
  | .bulkAddRecord t rs cols =>
      let nrs := rs.filter (fun id => !decide (id ∈ rowIds))
      if nrs.isEmpty then none else
      some (.bulkAddRecord t nrs (cols.map (fun p => (p.1, pruneVals rs p.2 (fun id => decide (id ∈ rowIds))))))
  | .bulkUpdateRecord t rs cols =>
      let nrs := rs.filter (fun id => !decide (id ∈ rowIds))
      if nrs.isEmpty then none else
      some (.bulkUpdateRecord t nrs (cols.map (fun p => (p.1, pruneVals rs p.2 (fun id => decide (id ∈ rowIds))))))
  | .bulkRemoveRecord t rs =>
      let nrs := rs.filter (fun id => !decide (id ∈ rowIds))
      if nrs.isEmpty then none else some (.bulkRemoveRecord t nrs)
  | .replaceTableData t rs cols =>
      let nrs := rs.filter (fun id => !decide (id ∈ rowIds))
      if nrs.isEmpty then none else
      some (.replaceTableData t nrs (cols.map (fun p => (p.1, pruneVals rs p.2 (fun id => decide (id ∈ rowIds))))))
  | .tableData t rs cols =>
      let nrs := rs.filter (fun id => !decide (id ∈ rowIds))
      if nrs.isEmpty then none else
      some (.tableData t nrs (cols.map (fun p => (p.1, pruneVals rs p.2 (fun id => decide (id ∈ rowIds))))))
  | other => some other

/-- `_makeAdditions`: a BulkAddRecord carrying the full post-state rows of
the given ids, built by pruning everything else from the post-state table. -/
def makeAdditions (data : TableDataAction) (rowIds : List Nat) : Option DocAction :=
  if rowIds.isEmpty then none else
  let notAdded := data.rowIds.filter (fun id => !decide (id ∈ rowIds))
  match removeRows data.toDocAction notAdded with
  | none => none
  | some (.tableData t rs cols) => some (.bulkAddRecord t rs cols)
  | some _ => none

/-- `_makeRemovals`: a BulkRemoveRecord for the given ids (in set-insertion
order). -/
def makeRemovals (data : TableDataAction) (rowIds : List Nat) : Option DocAction :=
  if rowIds.isEmpty then none else some (.bulkRemoveRecord data.tableId rowIds)

/-! ## Cell censoring (_filterRowsAndCells) -/

/-- The `getRecIndex` map of _filterRowsAndCells: identity when the action is
the rowsBefore object itself (the filterData path); otherwise a Map lookup
from row id to index in the snapshot. -/
def frcRecIdx (snapshot : TableDataAction) (sameAsBefore : Bool) (rowIds : List Nat)
    (idx : Nat) : Option Nat :=
  if sameAsBefore then some idx else lastIdxOf snapshot.rowIds (rowIds.getD idx 0)

/-- The per-row access verdict of _filterRowsAndCells: the rule oracle applied
with `rec` from rowsBefore and `newRec` from rowsAfter at this action index. -/
def frcAccessAt (o : PermOracle) (tableId : String)
    (rowsBefore rowsAfter : TableDataAction) (sameAsBefore : Bool)
    (rowIds : List Nat) (idx : Nat) : PermValue :=
  o.rowTableRead tableId
    ((frcRecIdx rowsBefore sameAsBefore rowIds idx).map (mkRec rowsBefore))
    ((frcRecIdx rowsAfter sameAsBefore rowIds idx).map (mkRec rowsAfter))

/-- Whether the cell in column `colId` of the row at `idx` must be censored:
the row access is neither deny (row is dropped instead) nor allow, and the
per-row column access is deny. -/
def frcShouldCensor (o : PermOracle) (tableId : String)
    (rowsBefore rowsAfter : TableDataAction) (sameAsBefore : Bool)
    (rowIds : List Nat) (idx : Nat) (colId : String) : Bool :=
  let acc := frcAccessAt o tableId rowsBefore rowsAfter sameAsBefore rowIds idx
  if acc = .deny then false
  else if acc = .allow then false
  else
    o.rowColumnRead tableId colId
      ((frcRecIdx rowsBefore sameAsBefore rowIds idx).map (mkRec rowsBefore))
      ((frcRecIdx rowsAfter sameAsBefore rowIds idx).map (mkRec rowsAfter)) = .deny

/-- The cell rewrites of _filterRowsAndCells: overwrite with the sentinel
"CENSORED" each cell whose per-row column access is deny (in rows that are
not dropped outright).  Actions without a colValues payload are unchanged. -/
def frcCensor (o : PermOracle) (a : DocAction)
    (rowsBefore rowsAfter : TableDataAction) (sameAsBefore : Bool) : DocAction :=
  let rowIds := getRowIdsFromDocAction a
  let sc : Nat → String → Bool := fun idx colId =>
    frcShouldCensor o (getTableId a) rowsBefore rowsAfter sameAsBefore rowIds idx colId
  match a with
  | .addRecord t r cols =>
      .addRecord t r (cols.map (fun p => if sc 0 p.1 then (p.1, .str "CENSORED") else p))
  | .updateRecord t r cols =>
      .updateRecord t r (cols.map (fun p => if sc 0 p.1 then (p.1, .str "CENSORED") else p))
  | .bulkAddRecord t rs cols =>
      .bulkAddRecord t rs (cols.map (fun p =>
        (p.1, p.2.enum.map (fun q => if sc q.1 p.1 then Cell.str "CENSORED" else q.2))))
  | .bulkUpdateRecord t rs cols =>
      .bulkUpdateRecord t rs (cols.map (fun p =>
        (p.1, p.2.enum.map (fun q => if sc q.1 p.1 then Cell.str "CENSORED" else q.2))))
  | .replaceTableData t rs cols =>
      .replaceTableData t rs (cols.map (fun p =>
        (p.1, p.2.enum.map (fun q => if sc q.1 p.1 then Cell.str "CENSORED" else q.2))))
  | .tableData t rs cols =>
      .tableData t rs (cols.map (fun p =>
        (p.1, p.2.enum.map (fun q => if sc q.1 p.1 then Cell.str "CENSORED" else q.2))))
  | other => other

/-- The `toRemove` index list of _filterRowsAndCells: positions whose per-row
access is deny. -/
def frcToRemove (o : PermOracle) (tableId : String)
    (rowsBefore rowsAfter : TableDataAction) (sameAsBefore : Bool)
    (rowIds : List Nat) : List Nat :=
  (List.range rowIds.length).filter (fun idx =>
    decide (frcAccessAt o tableId rowsBefore rowsAfter sameAsBefore rowIds idx = .deny))

/-- Remove from a list the entries at the given index positions. -/
def removeIdxs (toRemove : List Nat) (xs : List α) : List α :=
  (xs.enum.filter (fun p => !decide (p.1 ∈ toRemove))).map (fun p => p.2)

/-- Row removal applied to the action itself, used only on the filterData
path where the action is the snapshot being filtered in place. -/
def pruneActionAtIdxs (a : DocAction) (toRemove : List Nat) : DocAction :=
  match a with
  | .bulkAddRecord t rs cols =>
      .bulkAddRecord t (removeIdxs toRemove rs) (cols.map (fun p => (p.1, removeIdxs toRemove p.2)))
  | .bulkUpdateRecord t rs cols =>
      .bulkUpdateRecord t (removeIdxs toRemove rs) (cols.map (fun p => (p.1, removeIdxs toRemove p.2)))
  | .bulkRemoveRecord t rs => .bulkRemoveRecord t (removeIdxs toRemove rs)
  | .replaceTableData t rs cols =>
      .replaceTableData t (removeIdxs toRemove rs) (cols.map (fun p => (p.1, removeIdxs toRemove p.2)))
  | .tableData t rs cols =>
      .tableData t (removeIdxs toRemove rs) (cols.map (fun p => (p.1, removeIdxs toRemove p.2)))
  | other => other

/-- `_filterRowsAndCells`: scrub rows and cells to which access is not
granted.  The value returned is the (possibly rewritten) action; rows with
deny access are removed in place only on the filterData path, are silently
tolerated on removal actions, and otherwise raise "Unexpected row removal". -/
def filterRowsAndCells (o : PermOracle) (a : DocAction)
    (rowsBefore rowsAfter : TableDataAction) (sameAsBefore : Bool) :
    Except GError DocAction :=
  if isSchemaAction a then .ok a else
  let censored := frcCensor o a rowsBefore rowsAfter sameAsBefore
  let toRemove := frcToRemove o (getTableId a) rowsBefore rowsAfter sameAsBefore
      (getRowIdsFromDocAction a)
  if toRemove.isEmpty then .ok censored
  else if sameAsBefore then .ok (pruneActionAtIdxs censored toRemove)
  else if isRemoveAction a then .ok censored
  else .error (.plain "Unexpected row removal")

/-- The revised action list built by _pruneRows before cell censoring:
the forced additions, then the pruned original, then the forced removals,
dropping the null entries. -/
def pruneRowsRevised (o : PermOracle) (action : DocAction)
    (rowsBefore rowsAfter : TableDataAction) : List DocAction :=
  let ids := insertionDedup (getRowIdsFromDocAction action)
  let fb := getForbiddenRows o rowsBefore ids
  let fa := getForbiddenRows o rowsAfter ids
  ([makeAdditions rowsAfter (rowForceAdds action ids fb fa),
    removeRows action (rowRemovals action ids fb fa),
    makeRemovals rowsAfter (rowForceRemoves action ids fb fa)]).filterMap id

/-- `_pruneRows`: strip denied rows from one action of one step, rewriting it
into up to three actions, then apply cell-level censoring to each using the
post-state rows for both `rec` and `newRec`. -/
def pruneRows (o : PermOracle) (action : DocAction)
    (rowsBefore rowsAfter : TableDataAction) : Except GError (List DocAction) :=
  if isDataAction action = false then .ok [action] else
  (pruneRowsRevised o action rowsBefore rowsAfter).mapM
    (fun a => filterRowsAndCells o a rowsAfter rowsAfter false)

/-- The value of the caller's `action` object after `_pruneRows` returns.
`_removeRows` hands the original object back for a surviving singleton
action, and `_filterRowsAndCells` then writes "CENSORED" into its colValues
in place; every bulk shape is deep-copied first, so only surviving singleton
actions can be changed under the caller. -/
def pruneRowsInputAfter (o : PermOracle) (action : DocAction)
    (rowsBefore rowsAfter : TableDataAction) : DocAction :=
  if isDataAction action = false then action else
  let ids := insertionDedup (getRowIdsFromDocAction action)
  let fb := getForbiddenRows o rowsBefore ids
  let fa := getForbiddenRows o rowsAfter ids
  let removals := rowRemovals action ids fb fa
  match action with
  | .addRecord _ r _ =>
      if r ∈ removals then action else frcCensor o action rowsAfter rowsAfter false
  | .updateRecord _ r _ =>
      if r ∈ removals then action else frcCensor o action rowsAfter rowsAfter false
  | .removeRecord _ r =>
      if r ∈ removals then action else frcCensor o action rowsAfter rowsAfter false
  | _ => action

/-! ## CensorshipInfo (metadata censor) -/

/-- Numeric view of a cell (JavaScript `as number` on metadata references;
a falsy/absent value reads as 0). -/
def asNat : Cell → Nat
  | .num n => n.toNat
  | _ => 0

/-- String view of a cell (JavaScript `as string`). -/
def asString : Cell → String
  | .str s => s
  | _ => ""

/-- Read the cell of column `colId` at row index `idx` in a snapshot
(undefined reads as null). -/
def getCell (t : TableDataAction) (colId : String) (idx : Nat) : Cell :=
  match t.columns.lookup colId with
  | some vs => vs.getD idx .null
  | none => .null

/-- Lookup of one metadata table in the structural-table map
(`tables[tableId]`). -/
def lookupTable (tables : List (String × TableDataAction)) (tid : String) :
    TableDataAction :=
  (tables.lookup tid).getD ⟨tid, [], []⟩

/-- JavaScript `Set.add`: append if not yet present (keeps insertion order). -/
def listInsert (l : List Nat) (x : Nat) : List Nat :=
  if x ∈ l then l else l ++ [x]

/-- The five structural tables with per-row censorship sets (`this.censored`).
The two ACL tables are structural but have no censor set. -/
def censoredKeyTables : List String :=
  ["_grist_Tables", "_grist_Tables_column", "_grist_Views",
   "_grist_Views_section", "_grist_Views_section_field"]

/-- The censored-row sets computed by the CensorshipInfo constructor,
plus the AccessRules permission of the viewer. -/
structure CensorshipInfo where
  censoredTables : List Nat
  censoredSections : List Nat
  censoredViews : List Nat
  censoredColumns : List Nat
  censoredFields : List Nat
  canViewACLs : Bool
deriving DecidableEq, Repr

/-- The CensorshipInfo constructor: scan _grist_Tables for forbidden and
explicitly allowed tables, collect censored column codes, then censored
sections/views, censored column rows, and censored field rows.  (The
ruleCollection argument of the source constructor is unused there.)  The
lookup of an unknown parent table throws "table not found". -/
def buildCensorshipInfo (permInfo : PermOracle)
    (tables : List (String × TableDataAction)) (canViewACLs : Bool) :
    Except GError CensorshipInfo := do
  let tG := lookupTable tables "_grist_Tables"
  let scan1 :=
    tG.rowIds.enum.foldl (fun (acc : List Nat × List Nat × List (Nat × String)) p =>
      let tableId := asString (getCell tG "tableId" p.1)
      let m := (p.2, tableId) :: acc.2.2
      match permInfo.tableRead tableId with
      | .deny => (listInsert acc.1 p.2, acc.2.1, m)
      | .allow => (acc.1, listInsert acc.2.1 p.2, m)
      | _ => (acc.1, acc.2.1, m)) ([], [], [])
  let censoredTables := scan1.1
  let uncensoredTables := scan1.2.1
  let refToId := scan1.2.2
  let tCol := lookupTable tables "_grist_Tables_column"
  let codes ← tCol.rowIds.enum.foldlM (fun (codes : List (Nat × String)) p => do
    let parentId := asNat (getCell tCol "parentId" p.1)
    if parentId ∈ uncensoredTables then pure codes
    else
      match refToId.lookup parentId with
      | none => Except.error (GError.plain "table not found")
      | some tableId =>
        let colId := asString (getCell tCol "colId" p.1)
        if parentId ∈ censoredTables then pure (codes ++ [(parentId, colId)])
        else if !(colId = "manualSort") && permInfo.columnRead tableId colId = .deny then
          pure (codes ++ [(parentId, colId)])
        else pure codes) []
  let tSec := lookupTable tables "_grist_Views_section"
  let scan3 :=
    tSec.rowIds.enum.foldl (fun (acc : List Nat × List Nat) p =>
      if asNat (getCell tSec "tableRef" p.1) ∈ censoredTables then
        let parentId := asNat (getCell tSec "parentId" p.1)
        let cv := if parentId ≠ 0 then listInsert acc.1 parentId else acc.1
        (cv, listInsert acc.2 p.2)
      else acc) ([], [])
  let censoredViews := scan3.1
  let censoredSections := scan3.2
  let censoredColumns :=
    tCol.rowIds.enum.foldl (fun cc p =>
      let parentId := asNat (getCell tCol "parentId" p.1)
      if parentId ∈ censoredTables ∨
         (parentId, asString (getCell tCol "colId" p.1)) ∈ codes then
        listInsert cc p.2
      else cc) []
  let tFld := lookupTable tables "_grist_Views_section_field"
  let censoredFields :=
    tFld.rowIds.enum.foldl (fun cf p =>
      if asNat (getCell tFld "parentId" p.1) ∈ censoredSections ∨
         asNat (getCell tFld "colRef" p.1) ∈ censoredColumns then
        listInsert cf p.2
      else cf) []
  pure ⟨censoredTables, censoredSections, censoredViews, censoredColumns,
        censoredFields, canViewACLs⟩

/-- The censored-row set relevant for one of the five censorable tables. -/
def CensorshipInfo.censoredSetFor (ci : CensorshipInfo) (tableId : String) :
    List Nat :=
  if tableId = "_grist_Tables" then ci.censoredTables
  else if tableId = "_grist_Tables_column" then ci.censoredColumns
  else if tableId = "_grist_Views" then ci.censoredViews
  else if tableId = "_grist_Views_section" then ci.censoredSections
  else ci.censoredFields

/-- RecordEditor.set at a bulk index, in optional mode: a column absent from
the payload is skipped. -/
def setCellAtIdx (cols : BulkColValues) (colId : String) (idx : Nat) (v : Cell) :
    BulkColValues :=
  cols.map (fun p => if p.1 = colId then (p.1, p.2.set idx v) else p)

/-- RecordEditor.set on a singleton payload, in optional mode. -/
def setCellSingle (cols : ColValues) (colId : String) (v : Cell) : ColValues :=
  cols.map (fun p => if p.1 = colId then (p.1, v) else p)

/-- RecordEditor.set applied to a data action at a row index. -/
def setCellOpt (a : DocAction) (idx : Nat) (colId : String) (v : Cell) : DocAction :=
  match a with
  | .addRecord t r cols => .addRecord t r (setCellSingle cols colId v)
  | .updateRecord t r cols => .updateRecord t r (setCellSingle cols colId v)
  | .bulkAddRecord t rs cols => .bulkAddRecord t rs (setCellAtIdx cols colId idx v)
  | .bulkUpdateRecord t rs cols => .bulkUpdateRecord t rs (setCellAtIdx cols colId idx v)
  | .replaceTableData t rs cols => .replaceTableData t rs (setCellAtIdx cols colId idx v)
  | .tableData t rs cols => .tableData t rs (setCellAtIdx cols colId idx v)
  | other => other

/-- getCensorMethod: the per-table blanking rules. -/
def censorMethodApply (tableId : String) (a : DocAction) (idx : Nat) : DocAction :=
  if tableId = "_grist_Tables" then setCellOpt a idx "tableId" (.str "")
  else if tableId = "_grist_Views" then setCellOpt a idx "name" (.str "")
  else if tableId = "_grist_Views_section" then
    setCellOpt (setCellOpt a idx "title" (.str "")) idx "tableRef" (.num 0)
  else if tableId = "_grist_Tables_column" then
    setCellOpt (setCellOpt (setCellOpt (setCellOpt (setCellOpt (setCellOpt a
      idx "label" (.str "")) idx "colId" (.str "")) idx "widgetOptions" (.str ""))
      idx "formula" (.str "")) idx "type" (.str "Any")) idx "parentId" (.num 0)
  else if tableId = "_grist_Views_section_field" then
    setCellOpt (setCellOpt (setCellOpt a idx "widgetOptions" (.str ""))
      idx "filter" (.str "")) idx "parentId" (.num 0)
  else a

/-- CensorshipInfo.apply: rewrite one structural data action for the viewer.
Returns the rewritten action and the boolean the method returns (false means
the caller must drop the action). -/
def CensorshipInfo.apply (ci : CensorshipInfo) (a : DocAction) : DocAction × Bool :=
  let tableId := getTableId a
  if tableId ∈ STRUCTURAL_TABLES then
    if tableId ∈ censoredKeyTables then
      let censoredRows := ci.censoredSetFor tableId
      ((getRowIdsFromDocAction a).enum.foldl (fun acc p =>
        if p.2 ∈ censoredRows then censorMethodApply tableId acc p.1 else acc) a,
       true)
    else
      match a with
      | .tableData t _ _ =>
          if ci.canViewACLs then (a, ci.canViewACLs)
          else ((.tableData t [] []), ci.canViewACLs)
      | _ => (a, ci.canViewACLs)
  else (a, true)

/-! ## UserActions and the recursive scan -/

/-- A UserAction: either a plain action `[name, arg1, ...]` (with `arg1` its
position-1 argument, a tableId for data actions), or one of the two
container actions whose payload is a nested action list. -/
inductive UserAction where
  | prim (name : String) (arg1 : String)
  | applyUndoActions (payload : List UserAction)
  | applyDocActions (payload : List UserAction)

/-- `scanActionsRecursively`: walk the action list; on meeting an
ApplyUndoActions/ApplyDocActions container, return the scan of its payload
(the remainder of the list is not examined); otherwise test the action and
continue. -/
def scanActionsRecursively (actions : List UserAction) (check : UserAction → Bool) :
    Bool :=
  match actions with
  | [] => false
  | UserAction.applyUndoActions payload :: _ => scanActionsRecursively payload check
  | UserAction.applyDocActions payload :: _ => scanActionsRecursively payload check
  | a :: rest => if check a then true else scanActionsRecursively rest check

/-- The check used for hasDeliberateRuleChange: `isAclTable(String(a[1]))`.
For the containers, a[1] is the nested action list, whose string rendering
is never one of the two ACL table ids. -/
def aclUserActionCheck : UserAction → Bool
  | .prim _ arg1 => isAclTable arg1
  | _ => false

mutual

/-- Whether a user action targets an ACL table anywhere in its payload, at
any nesting depth (what the specification describes the recursive scan as
computing). -/
def targetsAclDeep : UserAction → Bool
  | .prim _ arg1 => isAclTable arg1
  | .applyUndoActions payload => targetsAclDeepList payload
  | .applyDocActions payload => targetsAclDeepList payload

/-- Whether any action of the list targets an ACL table at any depth. -/
def targetsAclDeepList : List UserAction → Bool
  | [] => false
  | a :: rest => targetsAclDeep a || targetsAclDeepList rest

end

/-- The actions that scanActionsRecursively actually examines: actions up to
the first container, which replaces itself and everything after it by its
own scanned payload. -/
def scannedActions (actions : List UserAction) : List UserAction :=
  match actions with
  | [] => []
  | UserAction.applyUndoActions payload :: _ => scannedActions payload
  | UserAction.applyDocActions payload :: _ => scannedActions payload
  | a :: rest => a :: scannedActions rest

/-! ## Ingress checks (assertCanMaybeApplyUserAction) -/

def OK_ACTIONS : List String := ["Calculate"]

def SPECIAL_ACTIONS : List String :=
  ["InitNewDoc", "EvalCode", "SetDisplayFormula", "UpdateSummaryViewSection",
   "DetachSummaryViewSection", "GenImporterView", "TransformAndFinishImport",
   "AddView", "CopyFromColumn", "AddHiddenColumn"]

def SURPRISING_ACTIONS : List String := ["RemoveView", "AddViewSection"]

def ACTION_WITH_TABLE_ID : List String :=
  ["AddRecord", "BulkAddRecord", "UpdateRecord", "BulkUpdateRecord",
   "RemoveRecord", "BulkRemoveRecord", "ReplaceTableData", "TableData"]

/-- hasFullAccess: currently synonymous with owner-level access. -/
def hasFullAccess (isOwner : Bool) : Bool := isOwner

/-- hasNuancedAccess: rules exist and the user does not have full access. -/
def hasNuancedAccess (haveRules isOwner : Bool) : Bool :=
  if haveRules = false then false else !hasFullAccess isOwner

/-- getAccessForActionType, reduced to the permission axis it binds. -/
inductive PermAxis where
  | readAxis
  | updateAxis
  | createAxis
  | deleteAxis
  | schemaEditAxis
deriving DecidableEq, Repr

/-- The axis checked for an action name on a table (structural tables map to
schemaEdit; updates, removes and adds to their own axes). -/
def getAccessAxisForActionName (tableId : String) (name : String) : PermAxis :=
  if tableId ∈ STRUCTURAL_TABLES then .schemaEditAxis
  else if name = "UpdateRecord" || name = "BulkUpdateRecord" then .updateAxis
  else if name = "RemoveRecord" || name = "BulkRemoveRecord" then .deleteAxis
  else if name = "AddRecord" || name = "BulkAddRecord" then .createAxis
  else .schemaEditAxis

/-- The full permission evaluation for the ingress path, abstracted: per
table and axis a verdict, plus the ruleType string used in ACL_DENY
messages. -/
structure IngressOracle where
  perms : String → PermAxis → PermValue
  ruleType : String → String

/-- A single-quote character, used in the source's error messages. -/
def sq : String := String.singleton (Char.ofNat 39)

mutual

/-- assertCanMaybeApplyUserAction: OK actions always pass; SPECIAL actions
require no nuanced access; SURPRISING actions require full access; the two
containers recurse; data actions on non-_grist_ tables run a fatal access
check; everything else defers (false). -/
def assertCanMaybeApplyUserAction (haveRules isOwner : Bool) (io : IngressOracle) :
    UserAction → Except GError Bool
  | .applyUndoActions payload =>
      assertCanMaybeApplyUserActions haveRules isOwner io payload
  | .applyDocActions payload =>
      assertCanMaybeApplyUserActions haveRules isOwner io payload
  | .prim name arg1 =>
      if name ∈ OK_ACTIONS then .ok true
      else if name ∈ SPECIAL_ACTIONS then
        if hasNuancedAccess haveRules isOwner then
          .error (.withCode "ACL_DENY"
            ("Blocked by access rules: " ++ sq ++ name ++ sq ++
             " actions need uncomplicated access"))
        else .ok true
      else if name ∈ SURPRISING_ACTIONS then
        if !hasFullAccess isOwner then
          .error (.withCode "ACL_DENY"
            ("Blocked by access rules: " ++ sq ++ name ++ sq ++
             " actions need full access"))
        else .ok true
      else if name ∈ ACTION_WITH_TABLE_ID then
        if arg1.startsWith "_grist_" then .ok false
        else
          let axis := getAccessAxisForActionName arg1 name
          if io.perms arg1 axis = .deny then
            .error (.withCode "ACL_DENY"
              ("Blocked by " ++ io.ruleType arg1 ++ " access rules"))
          else .ok true
      else .ok false

/-- assertCanMaybeApplyUserActions: all actions must pass, the first deferral
makes the whole list defer, and denials propagate as errors. -/
def assertCanMaybeApplyUserActions (haveRules isOwner : Bool) (io : IngressOracle) :
    List UserAction → Except GError Bool
  | [] => .ok true
  | a :: rest => do
      let r ← assertCanMaybeApplyUserAction haveRules isOwner io a
      if r then assertCanMaybeApplyUserActions haveRules isOwner io rest
      else pure false

end

/-! ## Engine state and the bundle lifecycle -/

/-- Cached user attributes for one session: clause name → the stable JSON
rendering of the looked-up record (`JSON.stringify(rec.toJSON())`). -/
structure UserAttributes where
  rows : List (String × String)
deriving DecidableEq, Repr

/-- The active bundle (this._activeBundle). -/
structure Bundle where
  docSession : Nat
  userActions : List UserAction
  docActions : List DocAction
  undo : List DocAction
  applied : Bool
  hasDeliberateRuleChange : Bool

/-- One ActionStep of the broadcast filter, with the per-step rule snapshot
abstracted as an optional oracle (set when rules changed mid-bundle). -/
structure ActionStep where
  action : DocAction
  rowsBefore : Option TableDataAction
  rowsAfter : Option TableDataAction
  metaBefore : Option (List (String × TableDataAction))
  metaAfter : Option (List (String × TableDataAction))
  rulerOracle : Option PermOracle

/-- The mutable state of the GranularAccess engine.  `userAttrTables` is the
set of user-attribute source tables derived from the rule collection;
`rulerCacheSessions` stands for the Ruler's per-session PermissionInfo cache
(clearCache empties it); the WeakMaps are modelled as association lists. -/
structure EngineState where
  haveRules : Bool
  userAttrTables : List String
  userAttributesMap : List (Nat × UserAttributes)
  prevUserAttributesMap : Option (List (Nat × UserAttributes))
  steps : Option (List ActionStep)
  activeBundle : Option Bundle
  rulerCacheSessions : List Nat

/-- getGranularAccessForBundle: reject overlap, then record the new bundle
with hasDeliberateRuleChange computed by the recursive scan. -/
def getGranularAccessForBundle (st : EngineState) (docSession : Nat)
    (docActions undo : List DocAction) (userActions : List UserAction) :
    Except GError EngineState :=
  match st.activeBundle with
  | some _ => .error (.plain "Cannot start a bundle while one is already in progress")
  | none =>
      let b : Bundle :=
        { docSession := docSession, userActions := userActions,
          docActions := docActions, undo := undo, applied := false,
          hasDeliberateRuleChange :=
            scanActionsRecursively userActions aclUserActionCheck }
      .ok { st with activeBundle := some b }

/-- appliedBundle: mark the bundle applied; when rules exist, move the
user-attribute cache aside on a user-attribute source change and clear the
Ruler cache on a user-attribute or schema change. -/
def appliedBundle (st : EngineState) : Except GError EngineState :=
  match st.activeBundle with
  | none => .error (.plain "no active bundle")
  | some b =>
    let st1 := { st with activeBundle := some { b with applied := true } }
    if st1.haveRules = false then .ok st1 else
    let attrChange := b.docActions.any
      (fun a => decide (getTableId a ∈ st1.userAttrTables))
    let st2 := if attrChange then
        { st1 with prevUserAttributesMap := some st1.userAttributesMap,
                   userAttributesMap := [] }
      else st1
    let schemaChange := b.docActions.any isSchemaAction
    let st3 := if attrChange || schemaChange then
        { st2 with rulerCacheSessions := [] }
      else st2
    .ok st3

/-- update(): rebuild the rules from the current DocData (whether the new
collection has rules is external input), clearing the Ruler cache and the
per-session user-attribute cache. -/
def updateGA (st : EngineState) (docDataHaveRules : Bool) : EngineState :=
  { st with haveRules := docDataHaveRules, rulerCacheSessions := [],
            userAttributesMap := [] }

/-- _updateRules: redo from scratch on an ACL change; otherwise, when rules
exist, redo on a schema change. -/
def updateRulesAfterApply (st : EngineState) (docActions : List DocAction)
    (docDataHaveRules : Bool) : EngineState :=
  if docActions.any (fun a => isAclTable (getTableId a)) then
    updateGA st docDataHaveRules
  else if st.haveRules = false then st
  else if docActions.any isSchemaAction then updateGA st docDataHaveRules
  else st

/-- finishedBundle: nothing to do without an active bundle; otherwise run
_updateRules when the bundle was applied, then drop the steps, the saved
user attributes and the bundle. -/
def finishedBundle (st : EngineState) (docDataHaveRules : Bool) : EngineState :=
  match st.activeBundle with
  | none => st
  | some b =>
    let st1 := if b.applied then
        updateRulesAfterApply st b.docActions docDataHaveRules
      else st
    { st1 with steps := none, prevUserAttributesMap := none, activeBundle := none }

/-- The idle state of the engine between bundles. -/
def isIdle (st : EngineState) : Prop :=
  st.activeBundle = none ∧ st.steps = none ∧ st.prevUserAttributesMap = none

/-- Reachable-state invariant: steps and the saved attribute map exist only
while a bundle is active. -/
def wfEngine (st : EngineState) : Prop :=
  st.activeBundle = none → st.steps = none ∧ st.prevUserAttributesMap = none

/-- _checkUserAttributes: when the previous attribute map is present and has
an entry for this session, compare each re-evaluated attribute with the
previous one by its stable JSON; a new or changed attribute raises
NEED_RELOAD. -/
def checkUserAttributes (prevMap : Option (List (Nat × UserAttributes)))
    (sess : Nat) (userAttrAfter : UserAttributes) : Except GError Unit :=
  match prevMap with
  | none => .ok ()
  | some m =>
    match m.lookup sess with
    | none => .ok ()
    | some before =>
      if userAttrAfter.rows.any (fun p =>
          match before.rows.lookup p.1 with
          | none => true
          | some prev => decide (prev ≠ p.2)) then
        .error (.withCode "NEED_RELOAD" "document needs reload, user attributes changed")
      else .ok ()

/-! ## The outgoing filter pipeline -/

/-- The per-viewer context of an outgoing broadcast: the viewer's default
PermissionInfo (as an oracle), the result of hasAccessRulesPermission, and
the viewer's user attributes as re-evaluated by _getAccess. -/
structure ViewerCtx where
  oracle : PermOracle
  canViewACLs : Bool
  userAttrAfter : UserAttributes

/-- _getStep: the step at the cursor index.  The steps are computed once per
bundle by the step builder (modelled as already materialized in the state);
an index past the computed array fails, as the source then dereferences an
undefined step. -/
def getStep (st : EngineState) (actionIdx : Nat) : Except GError ActionStep :=
  match st.steps with
  | none => .error (.plain "steps not computed")
  | some steps =>
    match steps[actionIdx]? with
    | some s => .ok s
    | none => .error (.plain "step lookup out of range")

/-- _getStepAccess / _getRuler: the step's own rule snapshot when rules
changed mid-bundle, the session default otherwise. -/
def getStepOracle (ctx : ViewerCtx) (step : ActionStep) : PermOracle :=
  step.rulerOracle.getD ctx.oracle

/-- _pruneRows at a cursor: non-data actions pass through; data actions need
the step's rowsBefore/rowsAfter snapshots. -/
def pruneRowsCursor (st : EngineState) (ctx : ViewerCtx) (action : DocAction)
    (actionIdx : Nat) : Except GError (List DocAction) :=
  if isDataAction action = false then .ok [action] else do
    let step ← getStep st actionIdx
    match step.rowsBefore, step.rowsAfter with
    | some rb, some ra => pruneRows (getStepOracle ctx step) action rb ra
    | _, _ => .error (.plain "Logic error: no rows available")

/-- _filterOutgoingStructuralTables: censor a structural-table data action
with CensorshipInfo built on the post-step metadata; for _grist_Views_section
actions additionally emit UpdateRecords for views whose censorship changed
between the pre- and post-step metadata. -/
def filterOutgoingStructuralTables (ctx : ViewerCtx) (permInfo : PermOracle)
    (step : ActionStep) (act : DocAction) : Except GError (List DocAction) := do
  let metaAfter ← match step.metaAfter with
    | some m => pure m
    | none => Except.error (GError.plain "missing metadata")
  let censor ← buildCensorshipInfo permInfo metaAfter ctx.canViewACLs
  let applied := censor.apply act
  let base := if applied.2 then [applied.1] else []
  if getTableId act = "_grist_Views_section" then do
    let metaBefore ← match step.metaBefore with
      | some m => pure m
      | none => Except.error (GError.plain "missing prior metadata")
    let censorBefore ← buildCensorshipInfo permInfo metaBefore ctx.canViewACLs
    let tV := lookupTable metaAfter "_grist_Views"
    let uncensorUpd := (censorBefore.censoredViews.filter
        (fun v => !decide (v ∈ censor.censoredViews))).map (fun v =>
          DocAction.updateRecord "_grist_Views" v
            [("name", getCell tV "name" (tV.rowIds.indexOf v))])
    let censorUpd := (censor.censoredViews.filter
        (fun v => !decide (v ∈ censorBefore.censoredViews))).map (fun v =>
          DocAction.updateRecord "_grist_Views" v [("name", Cell.str "")])
    pure (base ++ uncensorUpd ++ censorUpd)
  else pure base

/-- _filterOutgoingDocAction: drop on uniform deny, pass on uniform allow,
column-prune on mixedColumns, otherwise row-prune then column-prune; then
run the structural second pass over each result. -/
def filterOutgoingDocAction (st : EngineState) (ctx : ViewerCtx)
    (action : DocAction) (actionIdx : Nat) : Except GError (List DocAction) := do
  let tableId := getTableId action
  let step ← getStep st actionIdx
  let permInfo := getStepOracle ctx step
  let access := permInfo.tableRead tableId
  let results ←
    if access = .deny then pure ([] : List DocAction)
    else if access = .allow then pure [action]
    else if access = .mixedColumns then
      pure (pruneColumns action permInfo tableId).toList
    else do
      let pruned ← pruneRowsCursor st ctx action actionIdx
      pure (pruned.filterMap (fun act => pruneColumns act permInfo tableId))
  results.foldlM (fun acc act =>
    if getTableId act ∈ STRUCTURAL_TABLES && isDataAction act then do
      let extra ← filterOutgoingStructuralTables ctx permInfo step act
      pure (acc ++ extra)
    else pure (acc ++ [act])) []

/-- filterOutgoingDocActions: a deliberate rule change forces NEED_RELOAD;
with no rules the actions pass unchanged; otherwise the user-attribute guard
runs and every action is filtered at its own index. -/
def filterOutgoingDocActions (st : EngineState) (ctx : ViewerCtx) (sess : Nat)
    (docActions : List DocAction) : Except GError (List DocAction) :=
  if (st.activeBundle.map (fun b => b.hasDeliberateRuleChange)).getD false then
    .error (.withCode "NEED_RELOAD" "document needs reload, access rules changed")
  else if st.haveRules = false then .ok docActions
  else do
    checkUserAttributes st.prevUserAttributesMap sess ctx.userAttrAfter
    let lists ← docActions.enum.mapM (fun p => filterOutgoingDocAction st ctx p.2 p.1)
    pure lists.flatten

/-- _filterDocUpdate: shortcut when no rules exist and no deliberate rule
change is in flight; otherwise rewrite the message per viewer, suppressing
it entirely when no doc actions survive. -/
def filterDocUpdate (st : EngineState) (ctx : ViewerCtx) (sess : Nat)
    (docActions : List DocAction) : Except GError (Option (List DocAction)) :=
  if st.haveRules = false &&
     !((st.activeBundle.map (fun b => b.hasDeliberateRuleChange)).getD false) then
    .ok (some docActions)
  else do
    let filtered ← filterOutgoingDocActions st ctx sess docActions
    if filtered.isEmpty then pure none else pure (some filtered)

/-- The value of one input action object after filterOutgoingDocActions
returns.  Only the mixed branch hands the caller's object to _pruneRows,
which can censor a surviving singleton action in place; all other branches
copy before writing. -/
def filterOutgoingDocActionInputAfter (st : EngineState) (ctx : ViewerCtx)
    (action : DocAction) (actionIdx : Nat) : DocAction :=
  match getStep st actionIdx with
  | .error _ => action
  | .ok step =>
    let permInfo := getStepOracle ctx step
    let access := permInfo.tableRead (getTableId action)
    if access = .deny ∨ access = .allow ∨ access = .mixedColumns then action
    else if isDataAction action = false then action
    else match step.rowsBefore, step.rowsAfter with
      | some rb, some ra => pruneRowsInputAfter permInfo action rb ra
      | _, _ => action

/-! ## Helper lemmas -/

/-- The row ids of an optional action (null contributes no rows). -/
def rowsOfOpt (o : Option DocAction) : List Nat :=
  match o with
  | none => []
  | some a => getRowIdsFromDocAction a

theorem mem_insertionDedup_aux (l : List Nat) (acc : List Nat) (x : Nat) :
    x ∈ l.foldl (fun acc y => if y ∈ acc then acc else acc ++ [y]) acc ↔
      x ∈ acc ∨ x ∈ l := by
  induction l generalizing acc with
  | nil => simp
  | cons y ys ih =>
      simp only [List.foldl_cons]
      rw [ih]
      by_cases hy : y ∈ acc
      · simp only [if_pos hy, List.mem_cons]
        constructor
        · rintro (h | h)
          · exact Or.inl h
          · exact Or.inr (Or.inr h)
        · rintro (h | h | h)
          · exact Or.inl h
          · exact Or.inl (h ▸ hy)
          · exact Or.inr h
      · rw [if_neg hy]
        simp [List.mem_append, or_assoc]

theorem mem_insertionDedup (l : List Nat) (x : Nat) :
    x ∈ insertionDedup l ↔ x ∈ l := by
  unfold insertionDedup
  rw [mem_insertionDedup_aux]
  simp

theorem rowsOfOpt_removeRows (a : DocAction) (hd : isDataAction a = true)
    (kills : List Nat) :
    rowsOfOpt (removeRows a kills) =
      (getRowIdsFromDocAction a).filter (fun id => !decide (id ∈ kills)) := by
  cases a
  case addRecord t r cols =>
    by_cases hr : r ∈ kills <;>
      simp [removeRows, rowsOfOpt, getRowIdsFromDocAction, isSchemaAction, hr]
  case updateRecord t r cols =>
    by_cases hr : r ∈ kills <;>
      simp [removeRows, rowsOfOpt, getRowIdsFromDocAction, isSchemaAction, hr]
  case removeRecord t r =>
    by_cases hr : r ∈ kills <;>
      simp [removeRows, rowsOfOpt, getRowIdsFromDocAction, isSchemaAction, hr]
  case bulkAddRecord t rs cols =>
    by_cases he : (rs.filter (fun id => !decide (id ∈ kills))).isEmpty = true
    · have h0 := List.isEmpty_iff.mp he
      simp [removeRows, rowsOfOpt, getRowIdsFromDocAction, isSchemaAction, he, h0]
    · simp [removeRows, rowsOfOpt, getRowIdsFromDocAction, isSchemaAction, he]
  case bulkUpdateRecord t rs cols =>
    by_cases he : (rs.filter (fun id => !decide (id ∈ kills))).isEmpty = true
    · have h0 := List.isEmpty_iff.mp he
      simp [removeRows, rowsOfOpt, getRowIdsFromDocAction, isSchemaAction, he, h0]
    · simp [removeRows, rowsOfOpt, getRowIdsFromDocAction, isSchemaAction, he]
  case bulkRemoveRecord t rs =>
    by_cases he : (rs.filter (fun id => !decide (id ∈ kills))).isEmpty = true
    · have h0 := List.isEmpty_iff.mp he
      simp [removeRows, rowsOfOpt, getRowIdsFromDocAction, isSchemaAction, he, h0]
    · simp [removeRows, rowsOfOpt, getRowIdsFromDocAction, isSchemaAction, he]
  case replaceTableData t rs cols =>
    by_cases he : (rs.filter (fun id => !decide (id ∈ kills))).isEmpty = true
    · have h0 := List.isEmpty_iff.mp he
      simp [removeRows, rowsOfOpt, getRowIdsFromDocAction, isSchemaAction, he, h0]
    · simp [removeRows, rowsOfOpt, getRowIdsFromDocAction, isSchemaAction, he]
  case tableData t rs cols =>
    by_cases he : (rs.filter (fun id => !decide (id ∈ kills))).isEmpty = true
    · have h0 := List.isEmpty_iff.mp he
      simp [removeRows, rowsOfOpt, getRowIdsFromDocAction, isSchemaAction, he, h0]
    · simp [removeRows, rowsOfOpt, getRowIdsFromDocAction, isSchemaAction, he]
  all_goals simp [isDataAction] at hd

theorem lookup_mem {β : Type} (l : List (String × β)) (c : String) (v : β)
    (h : l.lookup c = some v) : (c, v) ∈ l := by
  induction l with
  | nil => simp [List.lookup] at h
  | cons p ps ih =>
      rw [List.lookup_cons] at h
      cases hbe : (c == p.1) with
      | true =>
          rw [hbe] at h
          have hc : c = p.1 := by simpa using hbe
          injection h with hv
          rw [hc, ← hv]
          exact List.mem_cons_self p ps
      | false =>
          rw [hbe] at h
          exact List.mem_cons_of_mem _ (ih h)

theorem lookup_map_val {β γ : Type} (l : List (String × β)) (f : String → β → γ)
    (c : String) :
    (l.map (fun p => (p.1, f p.1 p.2))).lookup c = (l.lookup c).map (f c) := by
  induction l with
  | nil => simp [List.lookup]
  | cons p ps ih =>
      obtain ⟨k, b⟩ := p
      simp only [List.map_cons, List.lookup_cons]
      cases hbe : (c == k) with
      | true =>
          have hc : c = k := by simpa using hbe
          simp [hc]
      | false => exact ih

theorem zip_filter_lookup (rs : List Nat) (vs : List Cell) (kill : Nat → Bool)
    (id : Nat) (hnd : rs.Nodup) (hk : kill id = false)
    (hlen : vs.length = rs.length) :
    ((rs.filter (fun x => !kill x)).zip (pruneVals rs vs kill)).lookup id =
      (rs.zip vs).lookup id := by
  induction rs generalizing vs with
  | nil => simp [pruneVals]
  | cons r rs ih =>
      cases vs with
      | nil => simp at hlen
      | cons v vs =>
          have hnd' := (List.nodup_cons.mp hnd).2
          have hlen' : vs.length = rs.length := by simpa using hlen
          by_cases hr : kill r = true
          · have hne : (id == r) = false := by
              simp only [beq_eq_false_iff_ne]
              intro he
              rw [← he, hk] at hr
              exact Bool.false_ne_true hr
            rw [List.filter_cons_of_neg (by simp [hr])]
            have hpv : pruneVals (r :: rs) (v :: vs) kill = pruneVals rs vs kill := by
              simp [pruneVals, List.zip_cons_cons, List.filter_cons_of_neg, hr]
            rw [hpv, ih vs hnd' hlen', List.zip_cons_cons, List.lookup_cons, hne]
          · have hr' : kill r = false := by
              cases h : kill r
              · rfl
              · exact absurd h hr
            rw [List.filter_cons_of_pos (by simp [hr'])]
            have hpv : pruneVals (r :: rs) (v :: vs) kill =
                v :: pruneVals rs vs kill := by
              simp [pruneVals, List.zip_cons_cons, List.filter_cons_of_pos, hr']
            rw [hpv, List.zip_cons_cons, List.zip_cons_cons, List.lookup_cons,
              List.lookup_cons]
            cases hbe : (id == r) with
            | true => rfl
            | false => exact ih vs hnd' hlen'

theorem lastIdxOfAux_not_mem (l : List Nat) (x : Nat) (base : Nat)
    (h : x ∉ l) : lastIdxOfAux l x base = none := by
  induction l generalizing base with
  | nil => rfl
  | cons y ys ih =>
      have hy : y ≠ x := fun he => h (he ▸ List.mem_cons_self y ys)
      have hx : x ∉ ys := fun hm => h (List.mem_cons_of_mem _ hm)
      rw [lastIdxOfAux, ih (base + 1) hx, if_neg hy]

theorem lastIdxOfAux_nodup (l : List Nat) (x : Nat) (base j : Nat)
    (hnd : l.Nodup) (hj : j < l.length) (he : l.getD j 0 = x) :
    lastIdxOfAux l x base = some (base + j) := by
  induction l generalizing base j with
  | nil => simp at hj
  | cons y ys ih =>
      have hnd1 := List.nodup_cons.mp hnd
      cases j with
      | zero =>
          simp only [List.getD_cons_zero] at he
          rw [lastIdxOfAux, lastIdxOfAux_not_mem ys x (base + 1) (he ▸ hnd1.1),
            if_pos he]
          simp
      | succ j =>
          have hj' : j < ys.length := by simpa using hj
          have he' : ys.getD j 0 = x := by simpa [List.getD_cons_succ] using he
          rw [lastIdxOfAux, ih (base + 1) j hnd1.2 hj' he']
          simp
          omega

theorem lastIdxOf_nodup (l : List Nat) (x : Nat) (j : Nat)
    (hnd : l.Nodup) (hj : j < l.length) (he : l.getD j 0 = x) :
    lastIdxOf l x = some j := by
  unfold lastIdxOf
  rw [lastIdxOfAux_nodup l x 0 j hnd hj he]
  simp

theorem mem_getForbiddenRows (o : PermOracle) (data : TableDataAction)
    (ids : List Nat) (id : Nat) :
    id ∈ getForbiddenRows o data ids ↔
      ∃ idx, idx < data.rowIds.length ∧ data.rowIds.getD idx 0 = id ∧ id ∈ ids ∧
        o.rowTableRead data.tableId (some (mkRec data idx)) none = .deny := by
  unfold getForbiddenRows
  rw [List.mem_filterMap]
  constructor
  · rintro ⟨idx, hidx, h⟩
    rw [List.mem_range] at hidx
    by_cases h1 : data.rowIds.getD idx 0 ∈ ids
    · rw [if_pos h1] at h
      by_cases h2 : o.rowTableRead data.tableId (some (mkRec data idx)) none = .deny
      · rw [if_pos h2] at h
        cases h
        exact ⟨idx, hidx, rfl, h1, h2⟩
      · rw [if_neg h2] at h
        cases h
    · rw [if_neg h1] at h
      cases h
  · rintro ⟨idx, hidx, he, hin, hdeny⟩
    refine ⟨idx, List.mem_range.mpr hidx, ?_⟩
    rw [he, if_pos hin, if_pos hdeny]

theorem getRowIds_frcCensor (o : PermOracle) (a : DocAction)
    (rb ra : TableDataAction) (s : Bool) :
    getRowIdsFromDocAction (frcCensor o a rb ra s) = getRowIdsFromDocAction a := by
  cases a <;> simp [frcCensor, getRowIdsFromDocAction]

theorem isRemoveAction_frcCensor (o : PermOracle) (a : DocAction)
    (rb ra : TableDataAction) (s : Bool) :
    isRemoveAction (frcCensor o a rb ra s) = isRemoveAction a := by
  cases a <;> simp [frcCensor, isRemoveAction]

theorem getTableId_frcCensor (o : PermOracle) (a : DocAction)
    (rb ra : TableDataAction) (s : Bool) :
    getTableId (frcCensor o a rb ra s) = getTableId a := by
  cases a <;> simp [frcCensor, getTableId]

theorem frcCensor_schema (o : PermOracle) (a : DocAction)
    (rb ra : TableDataAction) (s : Bool) (h : isSchemaAction a = true) :
    frcCensor o a rb ra s = a := by
  cases a <;> simp [isSchemaAction] at h <;> simp [frcCensor]

theorem mem_rowRemovals (action : DocAction) (ids fb fa : List Nat) (id : Nat) :
    id ∈ rowRemovals action ids fb fa ↔
      id ∈ ids ∧ ((id ∈ fb ∧ id ∈ fa) ∨
        (id ∈ fb ∧ id ∉ fa ∧ isAddLikeAction action = false) ∨
        (id ∉ fb ∧ id ∈ fa ∧ isRemoveAction action = false)) := by
  unfold rowRemovals
  rw [List.mem_filter]
  simp only [Bool.or_eq_true, Bool.and_eq_true, Bool.not_eq_true',
    decide_eq_true_eq, decide_eq_false_iff_not, Bool.not_eq_true]
  tauto

theorem mem_rowForceAdds (action : DocAction) (ids fb fa : List Nat) (id : Nat) :
    id ∈ rowForceAdds action ids fb fa ↔
      id ∈ ids ∧ id ∈ fb ∧ id ∉ fa ∧ isUpdateAction action = true := by
  unfold rowForceAdds
  rw [List.mem_filter]
  simp only [Bool.and_eq_true, Bool.not_eq_true', decide_eq_true_eq,
    decide_eq_false_iff_not]
  tauto

theorem mem_rowForceRemoves (action : DocAction) (ids fb fa : List Nat) (id : Nat) :
    id ∈ rowForceRemoves action ids fb fa ↔
      id ∈ ids ∧ id ∉ fb ∧ id ∈ fa ∧ isUpdateAction action = true := by
  unfold rowForceRemoves
  rw [List.mem_filter]
  simp only [Bool.and_eq_true, Bool.not_eq_true', decide_eq_true_eq,
    decide_eq_false_iff_not]
  tauto

theorem rowsOfOpt_makeRemovals (data : TableDataAction) (s : List Nat) (id : Nat) :
    id ∈ rowsOfOpt (makeRemovals data s) ↔ id ∈ s := by
  unfold makeRemovals
  by_cases hs : s.isEmpty = true
  · rw [if_pos hs]
    simp [rowsOfOpt, List.isEmpty_iff.mp hs]
  · rw [if_neg hs]
    simp [rowsOfOpt, getRowIdsFromDocAction]

theorem removeRows_tableDataShape (t : String) (rs : List Nat) (cols : BulkColValues)
    (kills : List Nat) :
    removeRows (.tableData t rs cols) kills =
      (if (rs.filter (fun id => !decide (id ∈ kills))).isEmpty then none
       else some (.tableData t (rs.filter (fun id => !decide (id ∈ kills)))
         (cols.map (fun p => (p.1, pruneVals rs p.2 (fun id => decide (id ∈ kills))))))) :=
  rfl

theorem rowsOfOpt_makeAdditions (data : TableDataAction) (s : List Nat) (id : Nat) :
    id ∈ rowsOfOpt (makeAdditions data s) ↔ s ≠ [] ∧ id ∈ data.rowIds ∧ id ∈ s := by
  have key : ∀ i, (i ∈ data.rowIds.filter
      (fun i => !decide (i ∈ data.rowIds.filter (fun j => !decide (j ∈ s))))) ↔
      (i ∈ data.rowIds ∧ i ∈ s) := by
    intro i
    simp only [List.mem_filter, Bool.not_eq_true', decide_eq_false_iff_not,
      List.mem_filter, Bool.not_eq_true', decide_eq_false_iff_not]
    tauto
  unfold makeAdditions
  by_cases hs : s.isEmpty = true
  · rw [if_pos hs]
    simp [rowsOfOpt, List.isEmpty_iff.mp hs]
  · rw [if_neg hs]
    have hs' : s ≠ [] := fun h => hs (by simp [h])
    simp only [TableDataAction.toDocAction, removeRows_tableDataShape]
    by_cases hn : (data.rowIds.filter
        (fun i => !decide (i ∈ data.rowIds.filter (fun j => !decide (j ∈ s))))).isEmpty = true
    · have hnil := List.isEmpty_iff.mp hn
      rw [if_pos hn]
      show id ∈ ([] : List Nat) ↔ _
      simp only [List.not_mem_nil, false_iff]
      rintro ⟨-, h2, h3⟩
      have hmem := (key id).mpr ⟨h2, h3⟩
      rw [hnil] at hmem
      exact List.not_mem_nil id hmem
    · rw [if_neg hn]
      show id ∈ (data.rowIds.filter
        (fun i => !decide (i ∈ data.rowIds.filter (fun j => !decide (j ∈ s))))) ↔ _
      rw [key id]
      exact ⟨fun h => ⟨hs', h.1, h.2⟩, fun h => ⟨h.2.1, h.2.2⟩⟩

theorem mapM_ok_of_forall {α β : Type} (l : List α) (f : α → Except GError β)
    (g : α → β) (h : ∀ a ∈ l, f a = .ok (g a)) : l.mapM f = .ok (l.map g) := by
  induction l with
  | nil => rfl
  | cons a as ih =>
      rw [List.mapM_cons, h a (List.mem_cons_self a as),
        ih (fun x hx => h x (List.mem_cons_of_mem _ hx))]
      rfl

theorem filterRowsAndCells_ok (o : PermOracle) (a : DocAction)
    (rb ra : TableDataAction)
    (h : frcToRemove o (getTableId a) rb ra false (getRowIdsFromDocAction a) = [] ∨
         isRemoveAction a = true) :
    filterRowsAndCells o a rb ra false = .ok (frcCensor o a rb ra false) := by
  unfold filterRowsAndCells
  by_cases hs : isSchemaAction a = true
  · rw [if_pos hs, frcCensor_schema o a rb ra false hs]
  · rw [if_neg hs]
    by_cases ht : (frcToRemove o (getTableId a) rb ra false
        (getRowIdsFromDocAction a)).isEmpty = true
    · rw [if_pos ht]
    · rcases h with h | h
      · exact absurd (by simp [h]) ht
      · rw [if_neg ht, if_neg (Bool.false_ne_true), if_pos h]

theorem frcToRemove_nil (o : PermOracle) (tid : String) (ra : TableDataAction)
    (rowIds : List Nat)
    (hcons : ∀ t r nr, o.rowTableRead t r nr = o.rowTableRead t r none)
    (hnd : ra.rowIds.Nodup)
    (h : ∀ id ∈ rowIds, ∃ idx, idx < ra.rowIds.length ∧ ra.rowIds.getD idx 0 = id ∧
          o.rowTableRead tid (some (mkRec ra idx)) none ≠ .deny) :
    frcToRemove o tid ra ra false rowIds = [] := by
  unfold frcToRemove
  rw [List.filter_eq_nil_iff]
  intro k hk
  rw [List.mem_range] at hk
  simp only [decide_eq_true_eq]
  have hmem : rowIds.getD k 0 ∈ rowIds := by
    rw [List.getD_eq_getElem rowIds 0 hk]
    exact List.getElem_mem hk
  obtain ⟨idx, hidx, he, hne⟩ := h (rowIds.getD k 0) hmem
  unfold frcAccessAt frcRecIdx
  rw [if_neg (Bool.false_ne_true)]
  rw [lastIdxOf_nodup ra.rowIds (rowIds.getD k 0) idx hnd hidx he]
  rw [Option.map_some']
  rw [hcons tid (some (mkRec ra idx)) (some (mkRec ra idx))]
  exact hne

theorem dataAction_kinds (a : DocAction) (h : isDataAction a = true) :
    (isAddLikeAction a = true ∧ isUpdateAction a = false ∧ isRemoveAction a = false) ∨
    (isAddLikeAction a = false ∧ isUpdateAction a = true ∧ isRemoveAction a = false) ∨
    (isAddLikeAction a = false ∧ isUpdateAction a = false ∧ isRemoveAction a = true) := by
  cases a <;>
    simp [isDataAction, isAddLikeAction, isUpdateAction, isRemoveAction] at h ⊢

theorem removeRows_isRemove_some (a a' : DocAction) (kills : List Nat)
    (hrem : isRemoveAction a = true) (h : removeRows a kills = some a') :
    isRemoveAction a' = true := by
  cases a <;> simp [isRemoveAction] at hrem
  case removeRecord t r =>
    by_cases hr : r ∈ kills
    · simp [removeRows, isSchemaAction, hr] at h
    · simp [removeRows, isSchemaAction, hr] at h
      rw [← h]
      rfl
  case bulkRemoveRecord t rs =>
    by_cases he : (rs.filter (fun i => !decide (i ∈ kills))).isEmpty = true
    · simp [removeRows, isSchemaAction, he] at h
    · simp [removeRows, isSchemaAction, he] at h
      rw [← h]
      rfl

theorem makeAdditions_eq_some (data : TableDataAction) (s : List Nat) (a : DocAction)
    (h : makeAdditions data s = some a) :
    a = DocAction.bulkAddRecord data.tableId
      (data.rowIds.filter
        (fun i => !decide (i ∈ data.rowIds.filter (fun j => !decide (j ∈ s)))))
      (data.columns.map (fun p => (p.1, pruneVals data.rowIds p.2
        (fun i => decide (i ∈ data.rowIds.filter (fun j => !decide (j ∈ s))))))) := by
  unfold makeAdditions at h
  by_cases hs : s.isEmpty = true
  · rw [if_pos hs] at h
    cases h
  · rw [if_neg hs] at h
    simp only [TableDataAction.toDocAction, removeRows_tableDataShape] at h
    by_cases hn : (data.rowIds.filter
        (fun i => !decide (i ∈ data.rowIds.filter (fun j => !decide (j ∈ s))))).isEmpty = true
    · rw [if_pos hn] at h
      simp at h
    · rw [if_neg hn] at h
      simp only [Option.some.injEq] at h
      exact h.symm

theorem makeRemovals_eq_some (data : TableDataAction) (s : List Nat) (a : DocAction)
    (h : makeRemovals data s = some a) :
    a = DocAction.bulkRemoveRecord data.tableId s ∧ s ≠ [] := by
  unfold makeRemovals at h
  by_cases hs : s.isEmpty = true
  · rw [if_pos hs] at h
    cases h
  · rw [if_neg hs] at h
    simp only [Option.some.injEq] at h
    exact ⟨h.symm, fun he => hs (by simp [he])⟩

theorem getTableId_removeRows (a a' : DocAction) (kills : List Nat)
    (h : removeRows a kills = some a') : getTableId a' = getTableId a := by
  cases a
  case addRecord t r cols =>
    by_cases hr : r ∈ kills <;> simp [removeRows, isSchemaAction, hr] at h
    subst h
    rfl
  case updateRecord t r cols =>
    by_cases hr : r ∈ kills <;> simp [removeRows, isSchemaAction, hr] at h
    subst h
    rfl
  case removeRecord t r =>
    by_cases hr : r ∈ kills <;> simp [removeRows, isSchemaAction, hr] at h
    subst h
    rfl
  case bulkAddRecord t rs cols =>
    by_cases he : (rs.filter (fun i => !decide (i ∈ kills))).isEmpty = true <;>
      simp [removeRows, isSchemaAction, he] at h
    subst h
    rfl
  case bulkUpdateRecord t rs cols =>
    by_cases he : (rs.filter (fun i => !decide (i ∈ kills))).isEmpty = true <;>
      simp [removeRows, isSchemaAction, he] at h
    subst h
    rfl
  case bulkRemoveRecord t rs =>
    by_cases he : (rs.filter (fun i => !decide (i ∈ kills))).isEmpty = true <;>
      simp [removeRows, isSchemaAction, he] at h
    subst h
    rfl
  case replaceTableData t rs cols =>
    by_cases he : (rs.filter (fun i => !decide (i ∈ kills))).isEmpty = true <;>
      simp [removeRows, isSchemaAction, he] at h
    subst h
    rfl
  case tableData t rs cols =>
    by_cases he : (rs.filter (fun i => !decide (i ∈ kills))).isEmpty = true <;>
      simp [removeRows, isSchemaAction, he] at h
    subst h
    rfl
  all_goals
    simp [removeRows, isSchemaAction] at h
    subst h
    rfl

theorem pruneRows_mapM_ok (o : PermOracle) (action : DocAction)
    (rowsBefore rowsAfter : TableDataAction)
    (hdata : isDataAction action = true)
    (hcons : ∀ t r nr, o.rowTableRead t r nr = o.rowTableRead t r none)
    (hnd : rowsAfter.rowIds.Nodup)
    (htid : rowsAfter.tableId = getTableId action)
    (hids : isRemoveAction action = false →
      ∀ rid ∈ getRowIdsFromDocAction action, rid ∈ rowsAfter.rowIds) :
    pruneRows o action rowsBefore rowsAfter =
      .ok ((pruneRowsRevised o action rowsBefore rowsAfter).map
        (fun a => frcCensor o a rowsAfter rowsAfter false)) := by
  have hnotdeny : ∀ rid, rid ∈ insertionDedup (getRowIdsFromDocAction action) →
      rid ∉ getForbiddenRows o rowsAfter (insertionDedup (getRowIdsFromDocAction action)) →
      rid ∈ rowsAfter.rowIds →
      ∃ idx, idx < rowsAfter.rowIds.length ∧ rowsAfter.rowIds.getD idx 0 = rid ∧
        o.rowTableRead rowsAfter.tableId (some (mkRec rowsAfter idx)) none ≠ .deny := by
    intro rid hin hnot hmem
    obtain ⟨idx, hidx, he⟩ := List.getElem_of_mem hmem
    refine ⟨idx, hidx, ?_, ?_⟩
    · rw [List.getD_eq_getElem _ 0 hidx, he]
    · intro hd
      apply hnot
      rw [mem_getForbiddenRows]
      exact ⟨idx, hidx, by rw [List.getD_eq_getElem _ 0 hidx, he], hin, hd⟩
  unfold pruneRows
  rw [if_neg (by simp [hdata])]
  apply mapM_ok_of_forall
  intro a' ha'
  apply filterRowsAndCells_ok
  simp only [pruneRowsRevised, List.mem_filterMap, List.mem_cons,
    List.not_mem_nil, or_false, id] at ha'
  obtain ⟨x, hx, hxa⟩ := ha'
  rcases hx with hx | hx | hx
  · rw [hx] at hxa
    have hshape := makeAdditions_eq_some _ _ _ hxa
    left
    rw [hshape]
    simp only [getTableId, getRowIdsFromDocAction]
    apply frcToRemove_nil o _ rowsAfter _ hcons hnd
    intro rid hrid
    rw [List.mem_filter] at hrid
    obtain ⟨hmem, hnot⟩ := hrid
    simp only [Bool.not_eq_true', decide_eq_false_iff_not] at hnot
    have hFA : rid ∈ rowForceAdds action
        (insertionDedup (getRowIdsFromDocAction action))
        (getForbiddenRows o rowsBefore (insertionDedup (getRowIdsFromDocAction action)))
        (getForbiddenRows o rowsAfter (insertionDedup (getRowIdsFromDocAction action))) := by
      by_contra hc
      exact hnot (List.mem_filter.mpr ⟨hmem,
        by simp only [Bool.not_eq_true', decide_eq_false_iff_not]; exact hc⟩)
    rw [mem_rowForceAdds] at hFA
    exact hnotdeny rid hFA.1 hFA.2.2.1 hmem
  · rw [hx] at hxa
    by_cases hrem : isRemoveAction action = true
    · right
      exact removeRows_isRemove_some action a' _ hrem hxa
    · left
      have hremf : isRemoveAction action = false := by
        cases h : isRemoveAction action
        · rfl
        · exact absurd h hrem
      have hrows : getRowIdsFromDocAction a' =
          (getRowIdsFromDocAction action).filter (fun i => !decide (i ∈
            rowRemovals action (insertionDedup (getRowIdsFromDocAction action))
              (getForbiddenRows o rowsBefore (insertionDedup (getRowIdsFromDocAction action)))
              (getForbiddenRows o rowsAfter (insertionDedup (getRowIdsFromDocAction action))))) := by
        have h0 := rowsOfOpt_removeRows action hdata
          (rowRemovals action (insertionDedup (getRowIdsFromDocAction action))
            (getForbiddenRows o rowsBefore (insertionDedup (getRowIdsFromDocAction action)))
            (getForbiddenRows o rowsAfter (insertionDedup (getRowIdsFromDocAction action))))
        rw [hxa] at h0
        simpa [rowsOfOpt] using h0
      have htida : getTableId a' = getTableId action := getTableId_removeRows action a' _ hxa
      rw [htida, ← htid]
      apply frcToRemove_nil o _ rowsAfter _ hcons hnd
      intro rid hrid
      rw [hrows, List.mem_filter] at hrid
      obtain ⟨hmemact, hnotrm⟩ := hrid
      simp only [Bool.not_eq_true', decide_eq_false_iff_not] at hnotrm
      have hinids : rid ∈ insertionDedup (getRowIdsFromDocAction action) :=
        (mem_insertionDedup _ _).mpr hmemact
      have hnfa : rid ∉ getForbiddenRows o rowsAfter
          (insertionDedup (getRowIdsFromDocAction action)) := by
        intro hfa'
        apply hnotrm
        rw [mem_rowRemovals]
        by_cases hfb' : rid ∈ getForbiddenRows o rowsBefore
            (insertionDedup (getRowIdsFromDocAction action))
        · exact ⟨hinids, Or.inl ⟨hfb', hfa'⟩⟩
        · exact ⟨hinids, Or.inr (Or.inr ⟨hfb', hfa', hremf⟩)⟩
      exact hnotdeny rid hinids hnfa (hids hremf rid hmemact)
  · rw [hx] at hxa
    right
    obtain ⟨heq, -⟩ := makeRemovals_eq_some _ _ _ hxa
    rw [heq]
    rfl

theorem kind_exclusion (a : DocAction) :
    (isAddLikeAction a = true → isUpdateAction a = false ∧ isRemoveAction a = false) ∧
    (isUpdateAction a = true → isAddLikeAction a = false ∧ isRemoveAction a = false) ∧
    (isRemoveAction a = true → isAddLikeAction a = false ∧ isUpdateAction a = false) := by
  cases a <;> simp [isAddLikeAction, isUpdateAction, isRemoveAction]

theorem mem_rowsOfOpt_removeRows (a : DocAction) (hdata : isDataAction a = true)
    (kills : List Nat) (rid : Nat) :
    rid ∈ rowsOfOpt (removeRows a kills) ↔
      rid ∈ getRowIdsFromDocAction a ∧ rid ∉ kills := by
  rw [rowsOfOpt_removeRows a hdata kills, List.mem_filter]
  simp

theorem makeAdditions_cellLookup (data : TableDataAction) (s : List Nat)
    (hnd : data.rowIds.Nodup)
    (hlen : ∀ p ∈ data.columns, p.2.length = data.rowIds.length)
    (a : DocAction) (hsome : makeAdditions data s = some a) :
    ∃ rs cols, a = DocAction.bulkAddRecord data.tableId rs cols ∧
      (∀ rid, rid ∈ rs ↔ rid ∈ data.rowIds ∧ rid ∈ s) ∧
      (∀ c rid, rid ∈ rs →
        (cols.lookup c).bind (fun vs => (rs.zip vs).lookup rid) =
        (data.columns.lookup c).bind (fun vs => (data.rowIds.zip vs).lookup rid)) := by
  have hshape := makeAdditions_eq_some data s a hsome
  refine ⟨_, _, hshape, ?_, ?_⟩
  · intro rid
    simp only [List.mem_filter, Bool.not_eq_true', decide_eq_false_iff_not]
    constructor
    · rintro ⟨h1, h2⟩
      refine ⟨h1, ?_⟩
      by_contra hc
      exact h2 ⟨h1, hc⟩
    · rintro ⟨h1, h2⟩
      exact ⟨h1, fun hm => hm.2 h2⟩
  · intro c rid hrid
    have hknf : (fun i => decide (i ∈ data.rowIds.filter
        (fun j => !decide (j ∈ s)))) rid = false := by
      rw [List.mem_filter] at hrid
      simp only [Bool.not_eq_true', decide_eq_false_iff_not] at hrid
      simp only [decide_eq_false_iff_not]
      exact hrid.2
    rw [lookup_map_val data.columns
      (fun _ vs => pruneVals data.rowIds vs
        (fun i => decide (i ∈ data.rowIds.filter (fun j => !decide (j ∈ s))))) c]
    cases hc : data.columns.lookup c with
    | none => simp
    | some vs =>
        simp only [Option.map_some', Option.some_bind]
        exact zip_filter_lookup data.rowIds vs _ rid hnd hknf
          (hlen (c, vs) (lookup_mem _ _ _ hc))

/-! ## Claim theorems -/

/-- C1: (amended) For every data action within a step and every viewer, row
pruning partitions the action-touched row ids by (forbiddenBefore,
forbiddenAfter): ids forbidden both before and after are removed from the
action; ids allowed both times are kept; an id that goes from forbidden to
allowed is kept as-is when the action is an add/replace, and is stripped from
the action and re-emitted as a BulkAddRecord carrying the full post-state row
only when the action is an update — for a remove it is merely stripped; an id
that goes from allowed to forbidden is kept when the action is a remove, and
is stripped and re-emitted as a BulkRemoveRecord only when the action is an
update — for an add/replace it is merely stripped; the result is an ordered
list of up to three actions (forceAdd, then the pruned original, then
forceRemove), each then cell-censored against the post-state rows. -/
theorem pruneRows_partition_amended (o : PermOracle) (action : DocAction)
    (rowsBefore rowsAfter : TableDataAction)
    (ids fb fa : List Nat) (A P R : Option DocAction)
    (hdata : isDataAction action = true)
    (hcons : ∀ t r nr, o.rowTableRead t r nr = o.rowTableRead t r none)
    (hnd : rowsAfter.rowIds.Nodup)
    (htid : rowsAfter.tableId = getTableId action)
    (hids : isRemoveAction action = false →
      ∀ rid ∈ getRowIdsFromDocAction action, rid ∈ rowsAfter.rowIds)
    (hlen : ∀ p ∈ rowsAfter.columns, p.2.length = rowsAfter.rowIds.length)
    (hids_def : ids = insertionDedup (getRowIdsFromDocAction action))
    (hfb_def : fb = getForbiddenRows o rowsBefore ids)
    (hfa_def : fa = getForbiddenRows o rowsAfter ids)
    (hA_def : A = makeAdditions rowsAfter (rowForceAdds action ids fb fa))
    (hP_def : P = removeRows action (rowRemovals action ids fb fa))
    (hR_def : R = makeRemovals rowsAfter (rowForceRemoves action ids fb fa)) :
    (pruneRowsRevised o action rowsBefore rowsAfter = [A, P, R].filterMap id) ∧
    (pruneRows o action rowsBefore rowsAfter =
      .ok (([A, P, R].filterMap id).map
        (fun x => frcCensor o x rowsAfter rowsAfter false))) ∧
    (∀ rid ∈ ids,
      (rid ∉ fb ∧ rid ∉ fa →
        ((rid ∈ rowsOfOpt P ↔ rid ∈ getRowIdsFromDocAction action) ∧
          rid ∉ rowsOfOpt A ∧ rid ∉ rowsOfOpt R)) ∧
      (rid ∈ fb ∧ rid ∈ fa →
        (rid ∉ rowsOfOpt P ∧ rid ∉ rowsOfOpt A ∧ rid ∉ rowsOfOpt R)) ∧
      (rid ∈ fb ∧ rid ∉ fa ∧ isAddLikeAction action = true →
        ((rid ∈ rowsOfOpt P ↔ rid ∈ getRowIdsFromDocAction action) ∧
          rid ∉ rowsOfOpt A ∧ rid ∉ rowsOfOpt R)) ∧
      (rid ∈ fb ∧ rid ∉ fa ∧ isUpdateAction action = true →
        (rid ∉ rowsOfOpt P ∧ rid ∈ rowsOfOpt A ∧ rid ∉ rowsOfOpt R)) ∧
      (rid ∈ fb ∧ rid ∉ fa ∧ isRemoveAction action = true →
        (rid ∉ rowsOfOpt P ∧ rid ∉ rowsOfOpt A ∧ rid ∉ rowsOfOpt R)) ∧
      (rid ∉ fb ∧ rid ∈ fa ∧ isRemoveAction action = true →
        ((rid ∈ rowsOfOpt P ↔ rid ∈ getRowIdsFromDocAction action) ∧
          rid ∉ rowsOfOpt A ∧ rid ∉ rowsOfOpt R)) ∧
      (rid ∉ fb ∧ rid ∈ fa ∧ isUpdateAction action = true →
        (rid ∉ rowsOfOpt P ∧ rid ∉ rowsOfOpt A ∧ rid ∈ rowsOfOpt R)) ∧
      (rid ∉ fb ∧ rid ∈ fa ∧ isAddLikeAction action = true →
        (rid ∉ rowsOfOpt P ∧ rid ∉ rowsOfOpt A ∧ rid ∉ rowsOfOpt R))) ∧
    (rowForceAdds action ids fb fa = [] → A = none) ∧
    (rowForceAdds action ids fb fa ≠ [] →
      ∃ rs cols, A = some (DocAction.bulkAddRecord rowsAfter.tableId rs cols) ∧
        (∀ rid, rid ∈ rs ↔ rid ∈ rowsAfter.rowIds ∧
          rid ∈ rowForceAdds action ids fb fa) ∧
        (∀ c rid, rid ∈ rs →
          (cols.lookup c).bind (fun vs => (rs.zip vs).lookup rid) =
          (rowsAfter.columns.lookup c).bind
            (fun vs => (rowsAfter.rowIds.zip vs).lookup rid))) ∧
    (rowForceRemoves action ids fb fa = [] → R = none) ∧
    (rowForceRemoves action ids fb fa ≠ [] →
      R = some (DocAction.bulkRemoveRecord rowsAfter.tableId
        (rowForceRemoves action ids fb fa))) := by
  have hex := kind_exclusion action
  have h1a : pruneRowsRevised o action rowsBefore rowsAfter = [A, P, R].filterMap id := by
    rw [hA_def, hP_def, hR_def, hfb_def, hfa_def, hids_def]
    rfl
  refine ⟨h1a, ?_, ?_, ?_, ?_, ?_, ?_⟩
  · rw [← h1a]
    exact pruneRows_mapM_ok o action rowsBefore rowsAfter hdata hcons hnd htid hids
  · intro rid hmem
    have hact : rid ∈ getRowIdsFromDocAction action :=
      (mem_insertionDedup _ _).mp (hids_def ▸ hmem)
    have hPiff : rid ∈ rowsOfOpt P ↔
        rid ∈ getRowIdsFromDocAction action ∧ rid ∉ rowRemovals action ids fb fa := by
      rw [hP_def]
      exact mem_rowsOfOpt_removeRows action hdata _ rid
    have hAiff : rid ∈ rowsOfOpt A ↔
        rowForceAdds action ids fb fa ≠ [] ∧ rid ∈ rowsAfter.rowIds ∧
          rid ∈ rowForceAdds action ids fb fa := by
      rw [hA_def]
      exact rowsOfOpt_makeAdditions rowsAfter _ rid
    have hRiff : rid ∈ rowsOfOpt R ↔ rid ∈ rowForceRemoves action ids fb fa := by
      rw [hR_def]
      exact rowsOfOpt_makeRemovals rowsAfter _ rid
    have hRMiff := mem_rowRemovals action ids fb fa rid
    have hFAiff := mem_rowForceAdds action ids fb fa rid
    have hFRiff := mem_rowForceRemoves action ids fb fa rid
    refine ⟨?_, ?_, ?_, ?_, ?_, ?_, ?_, ?_⟩
    · rintro ⟨hb, ha⟩
      refine ⟨?_, ?_, ?_⟩
      · constructor
        · intro h
          exact (hPiff.mp h).1
        · intro h
          refine hPiff.mpr ⟨h, fun hrm => ?_⟩
          rcases (hRMiff.mp hrm).2 with hc | hc | hc
          · exact ha hc.2
          · exact hb hc.1
          · exact ha hc.2.1
      · intro hA'
        exact hb ((hFAiff.mp (hAiff.mp hA').2.2).2.1)
      · intro hR'
        exact ha ((hFRiff.mp (hRiff.mp hR')).2.2.1)
    · rintro ⟨hb, ha⟩
      refine ⟨?_, ?_, ?_⟩
      · intro hP'
        exact (hPiff.mp hP').2 (hRMiff.mpr ⟨hmem, Or.inl ⟨hb, ha⟩⟩)
      · intro hA'
        exact (hFAiff.mp (hAiff.mp hA').2.2).2.2.1 ha
      · intro hR'
        exact (hFRiff.mp (hRiff.mp hR')).2.1 hb
    · rintro ⟨hb, ha, hal⟩
      have hexa := hex.1 hal
      refine ⟨?_, ?_, ?_⟩
      · constructor
        · intro h
          exact (hPiff.mp h).1
        · intro h
          refine hPiff.mpr ⟨h, fun hrm => ?_⟩
          rcases (hRMiff.mp hrm).2 with hc | hc | hc
          · exact ha hc.2
          · exact absurd hal (by simp [hc.2.2])
          · exact ha hc.2.1
      · intro hA'
        exact absurd ((hFAiff.mp (hAiff.mp hA').2.2).2.2.2) (by simp [hexa.1])
      · intro hR'
        exact absurd ((hFRiff.mp (hRiff.mp hR')).2.2.2) (by simp [hexa.1])
    · rintro ⟨hb, ha, hup⟩
      have hexu := hex.2.1 hup
      refine ⟨?_, ?_, ?_⟩
      · intro hP'
        exact (hPiff.mp hP').2 (hRMiff.mpr ⟨hmem, Or.inr (Or.inl ⟨hb, ha, hexu.1⟩)⟩)
      · refine hAiff.mpr ⟨?_, ?_, ?_⟩
        · exact List.ne_nil_of_mem (hFAiff.mpr ⟨hmem, hb, ha, hup⟩)
        · exact hids hexu.2 rid hact
        · exact hFAiff.mpr ⟨hmem, hb, ha, hup⟩
      · intro hR'
        exact (hFRiff.mp (hRiff.mp hR')).2.1 hb
    · rintro ⟨hb, ha, hrm⟩
      have hexr := hex.2.2 hrm
      refine ⟨?_, ?_, ?_⟩
      · intro hP'
        exact (hPiff.mp hP').2 (hRMiff.mpr ⟨hmem, Or.inr (Or.inl ⟨hb, ha, hexr.1⟩)⟩)
      · intro hA'
        exact absurd ((hFAiff.mp (hAiff.mp hA').2.2).2.2.2) (by simp [hexr.2])
      · intro hR'
        exact absurd ((hFRiff.mp (hRiff.mp hR')).2.2.2) (by simp [hexr.2])
    · rintro ⟨hb, ha, hrm⟩
      refine ⟨?_, ?_, ?_⟩
      · constructor
        · intro h
          exact (hPiff.mp h).1
        · intro h
          refine hPiff.mpr ⟨h, fun hrm' => ?_⟩
          rcases (hRMiff.mp hrm').2 with hc | hc | hc
          · exact hb hc.1
          · exact hb hc.1
          · exact absurd hrm (by simp [hc.2.2])
      · intro hA'
        exact hb ((hFAiff.mp (hAiff.mp hA').2.2).2.1)
      · intro hR'
        exact absurd ((hFRiff.mp (hRiff.mp hR')).2.2.2) (by simp [(hex.2.2 hrm).2])
    · rintro ⟨hb, ha, hup⟩
      have hexu := hex.2.1 hup
      refine ⟨?_, ?_, ?_⟩
      · intro hP'
        exact (hPiff.mp hP').2 (hRMiff.mpr ⟨hmem, Or.inr (Or.inr ⟨hb, ha, hexu.2⟩)⟩)
      · intro hA'
        exact hb ((hFAiff.mp (hAiff.mp hA').2.2).2.1)
      · exact hRiff.mpr (hFRiff.mpr ⟨hmem, hb, ha, hup⟩)
    · rintro ⟨hb, ha, hal⟩
      have hexa := hex.1 hal
      refine ⟨?_, ?_, ?_⟩
      · intro hP'
        exact (hPiff.mp hP').2 (hRMiff.mpr ⟨hmem, Or.inr (Or.inr ⟨hb, ha, hexa.2⟩)⟩)
      · intro hA'
        exact hb ((hFAiff.mp (hAiff.mp hA').2.2).2.1)
      · intro hR'
        exact absurd ((hFRiff.mp (hRiff.mp hR')).2.2.2) (by simp [hexa.1])
  · intro hnil
    rw [hA_def, hnil]
    rfl
  · intro hne
    obtain ⟨rid0, hrid0⟩ := List.exists_mem_of_ne_nil _ hne
    have hfa0 := (mem_rowForceAdds action ids fb fa rid0).mp hrid0
    have hrm0 : isRemoveAction action = false := (hex.2.1 hfa0.2.2.2).2
    have hmem0 : rid0 ∈ rowsAfter.rowIds :=
      hids hrm0 rid0 ((mem_insertionDedup _ _).mp (hids_def ▸ hfa0.1))
    cases hA : makeAdditions rowsAfter (rowForceAdds action ids fb fa) with
    | none =>
        exfalso
        unfold makeAdditions at hA
        rw [if_neg (by simp [hne])] at hA
        simp only [TableDataAction.toDocAction, removeRows_tableDataShape] at hA
        by_cases hk : (rowsAfter.rowIds.filter (fun i => !decide (i ∈
            rowsAfter.rowIds.filter
              (fun j => !decide (j ∈ rowForceAdds action ids fb fa))))).isEmpty = true
        · have hin0 : rid0 ∈ rowsAfter.rowIds.filter (fun i => !decide (i ∈
              rowsAfter.rowIds.filter
                (fun j => !decide (j ∈ rowForceAdds action ids fb fa)))) := by
            refine List.mem_filter.mpr ⟨hmem0, ?_⟩
            simp only [Bool.not_eq_true', decide_eq_false_iff_not]
            intro hmN
            rw [List.mem_filter] at hmN
            simp only [Bool.not_eq_true', decide_eq_false_iff_not] at hmN
            exact hmN.2 hrid0
          rw [List.isEmpty_iff.mp hk] at hin0
          exact List.not_mem_nil rid0 hin0
        · rw [if_neg hk] at hA
          exact Option.noConfusion hA
    | some a =>
        obtain ⟨rs, cols, hsh, hmemiff, hcells⟩ :=
          makeAdditions_cellLookup rowsAfter _ hnd hlen a hA
        exact ⟨rs, cols, by rw [hA_def, hA, hsh], hmemiff, hcells⟩
  · intro hnil
    rw [hR_def, hnil]
    rfl
  · intro hne
    rw [hR_def]
    unfold makeRemovals
    rw [if_neg (by simp [hne])]

/-- An oracle granting read access everywhere (used in concrete instances). -/
def allowOracle : PermOracle :=
  { tableRead := fun _ => .allow
    columnRead := fun _ _ => .allow
    rowTableRead := fun _ _ _ => .allow
    rowColumnRead := fun _ _ _ _ => .allow }

/-- An engine state with no active bundle and nothing cached. -/
def idleState : EngineState :=
  { haveRules := false, userAttrTables := [], userAttributesMap := [],
    prevUserAttributesMap := none, steps := none, activeBundle := none,
    rulerCacheSessions := [] }

/-- A viewer context with the allow-everything oracle. -/
def allowCtx : ViewerCtx := ⟨allowOracle, true, ⟨[]⟩⟩

/-- A bundle recording a deliberate rule change. -/
def ruleChangeBundle : Bundle :=
  { docSession := 0, userActions := [], docActions := [], undo := [],
    applied := false, hasDeliberateRuleChange := true }

/-- C4: For every bundle whose hasDeliberateRuleChange flag is set,
filterOutgoingDocActions throws a NEED_RELOAD error for every subscriber —
whatever the viewer's permissions (the oracle), session, or the actions to
filter — so no DocActions are delivered for that bundle. -/
theorem filterOutgoing_deliberateRuleChange_needReload
    (st : EngineState) (ctx : ViewerCtx) (sess : Nat) (docActions : List DocAction)
    (b : Bundle) (hb : st.activeBundle = some b)
    (hd : b.hasDeliberateRuleChange = true) :
    filterOutgoingDocActions st ctx sess docActions =
      .error (.withCode "NEED_RELOAD" "document needs reload, access rules changed") := by
  unfold filterOutgoingDocActions
  rw [hb]
  simp [hd]

theorem filterOutgoing_deliberateRuleChange_needReload_witness :
    filterOutgoingDocActions { idleState with activeBundle := some ruleChangeBundle }
        allowCtx 0 [] =
      .error (.withCode "NEED_RELOAD" "document needs reload, access rules changed") :=
  filterOutgoing_deliberateRuleChange_needReload
    { idleState with activeBundle := some ruleChangeBundle }
    allowCtx 0 [] ruleChangeBundle rfl rfl

/-- C7: After every call to finishedBundle on a well-formed engine state —
whether the bundle was applied or not, and also when no bundle is active —
the engine is back in the idle state (no bundle, no steps, no saved user
attributes), and calling finishedBundle again leaves the state unchanged
(idempotence).  Well-formedness says steps and the saved attribute map only
exist while a bundle is active, which the operations maintain. -/
theorem finishedBundle_restores_idle (st : EngineState) (d d2 : Bool)
    (hwf : wfEngine st) :
    isIdle (finishedBundle st d) ∧
      finishedBundle (finishedBundle st d) d2 = finishedBundle st d := by
  cases hb : st.activeBundle with
  | none =>
      have h := hwf hb
      have e : finishedBundle st d = st := by
        unfold finishedBundle
        rw [hb]
      have e2 : finishedBundle st d2 = st := by
        unfold finishedBundle
        rw [hb]
      constructor
      · rw [e]
        exact ⟨hb, h.1, h.2⟩
      · rw [e, e2]
  | some b =>
      have e : finishedBundle st d =
          { (if b.applied then updateRulesAfterApply st b.docActions d else st) with
            steps := none, prevUserAttributesMap := none, activeBundle := none } := by
        unfold finishedBundle
        rw [hb]
      constructor
      · rw [e]
        exact ⟨rfl, rfl, rfl⟩
      · rw [e]
        unfold finishedBundle
        rfl

theorem finishedBundle_restores_idle_witness :
    isIdle (finishedBundle { idleState with activeBundle := some ruleChangeBundle } true) ∧
      finishedBundle (finishedBundle
        { idleState with activeBundle := some ruleChangeBundle } true) false =
      finishedBundle { idleState with activeBundle := some ruleChangeBundle } true :=
  finishedBundle_restores_idle { idleState with activeBundle := some ruleChangeBundle }
    true false (fun h => Option.noConfusion h)

/-- An ingress oracle granting every permission (used in witnesses). -/
def allowIngress : IngressOracle := ⟨fun _ _ => .allow, fun _ => "table"⟩

/-- C9: In the ingress check assertCanMaybeApplyUserAction, a Calculate
action (the OK set) is always allowed regardless of rules and role; an
action named in the SPECIAL set is allowed exactly when the user has no
nuanced restriction and otherwise an ACL_DENY error is thrown; an action in
the SURPRISING set is allowed exactly when the user has full (owner) access
and otherwise an ACL_DENY error is thrown. -/
theorem assertCanMaybeApply_classification
    (haveRules isOwner : Bool) (io : IngressOracle) (name arg1 : String) :
    (name ∈ OK_ACTIONS →
      assertCanMaybeApplyUserAction haveRules isOwner io (.prim name arg1) = .ok true) ∧
    (name ∈ SPECIAL_ACTIONS →
      assertCanMaybeApplyUserAction haveRules isOwner io (.prim name arg1) =
        (if hasNuancedAccess haveRules isOwner then
          .error (.withCode "ACL_DENY"
            ("Blocked by access rules: " ++ sq ++ name ++ sq ++
             " actions need uncomplicated access"))
         else .ok true)) ∧
    (name ∈ SURPRISING_ACTIONS →
      assertCanMaybeApplyUserAction haveRules isOwner io (.prim name arg1) =
        (if hasFullAccess isOwner then .ok true
         else .error (.withCode "ACL_DENY"
            ("Blocked by access rules: " ++ sq ++ name ++ sq ++
             " actions need full access")))) := by
  refine ⟨?_, ?_, ?_⟩
  · intro h
    simp only [OK_ACTIONS, List.mem_singleton] at h
    subst h
    simp [assertCanMaybeApplyUserAction, OK_ACTIONS]
  · intro h
    simp only [SPECIAL_ACTIONS, List.mem_cons, List.not_mem_nil, or_false] at h
    rcases h with h | h | h | h | h | h | h | h | h | h <;> subst h <;>
      cases haveRules <;> cases isOwner <;>
        simp [assertCanMaybeApplyUserAction, OK_ACTIONS, SPECIAL_ACTIONS,
          hasNuancedAccess, hasFullAccess]
  · intro h
    simp only [SURPRISING_ACTIONS, List.mem_cons, List.not_mem_nil, or_false] at h
    rcases h with h | h <;> subst h <;>
      cases haveRules <;> cases isOwner <;>
        simp [assertCanMaybeApplyUserAction, OK_ACTIONS, SPECIAL_ACTIONS,
          SURPRISING_ACTIONS, hasNuancedAccess, hasFullAccess]

theorem assertCanMaybeApply_classification_witness :
    assertCanMaybeApplyUserAction true false allowIngress (.prim "Calculate" "T") =
      .ok true ∧
    assertCanMaybeApplyUserAction true false allowIngress (.prim "AddView" "T") =
      (if hasNuancedAccess true false then
        Except.error (GError.withCode "ACL_DENY"
          ("Blocked by access rules: " ++ sq ++ "AddView" ++ sq ++
           " actions need uncomplicated access"))
       else .ok true) ∧
    assertCanMaybeApplyUserAction true true allowIngress (.prim "RemoveView" "T") =
      (if hasFullAccess true then .ok true
       else Except.error (GError.withCode "ACL_DENY"
          ("Blocked by access rules: " ++ sq ++ "RemoveView" ++ sq ++
           " actions need full access"))) :=
  ⟨(assertCanMaybeApply_classification true false allowIngress "Calculate" "T").1
      (by decide),
   (assertCanMaybeApply_classification true false allowIngress "AddView" "T").2.1
      (by decide),
   (assertCanMaybeApply_classification true true allowIngress "RemoveView" "T").2.2
      (by decide)⟩

theorem buildCensorshipInfo_canViewACLs (permInfo : PermOracle)
    (tables : List (String × TableDataAction)) (v : Bool) (ci : CensorshipInfo)
    (h : buildCensorshipInfo permInfo tables v = .ok ci) : ci.canViewACLs = v := by
  unfold buildCensorshipInfo at h
  simp only [bind, Except.bind] at h
  split at h
  · exact Except.noConfusion h
  · simp only [pure, Except.pure] at h
    cases h
    rfl

/-- C2: (amended) For every outgoing data action on _grist_ACLRules or
_grist_ACLResources and every viewer who lacks the AccessRules permission,
CensorshipInfo.apply empties the payload only for the TableData shape
(clearing rowIds and columns; other shapes are left untouched) and returns
FALSE — the viewer's AccessRules permission — not true; the false return is
what makes the outgoing structural filter drop the action, so such a viewer
never receives a non-empty payload for those two tables. -/
theorem censorship_apply_acl_amended
    (ctx : ViewerCtx) (permInfo : PermOracle) (step : ActionStep)
    (ci : CensorshipInfo) (meta : List (String × TableDataAction)) (act : DocAction)
    (hv : ctx.canViewACLs = false)
    (ha : isAclTable (getTableId act) = true)
    (hd : isDataAction act = true)
    (hm : step.metaAfter = some meta)
    (hbuild : buildCensorshipInfo permInfo meta ctx.canViewACLs = .ok ci) :
    (ci.apply act).2 = false ∧
    (match act with
      | DocAction.tableData t _ _ => (ci.apply act).1 = DocAction.tableData t [] []
      | _ => (ci.apply act).1 = act) ∧
    filterOutgoingStructuralTables ctx permInfo step act = .ok [] := by
  have hciv : ci.canViewACLs = false := by
    rw [buildCensorshipInfo_canViewACLs permInfo meta ctx.canViewACLs ci hbuild, hv]
  have hacl : getTableId act = "_grist_ACLRules" ∨
      getTableId act = "_grist_ACLResources" := by
    unfold isAclTable at ha
    simp only [Bool.or_eq_true, decide_eq_true_eq] at ha
    exact ha
  have happly2 : (ci.apply act).2 = false := by
    rcases hacl with hacl | hacl <;> cases act <;>
      simp_all [CensorshipInfo.apply, getTableId, isDataAction,
        STRUCTURAL_TABLES, censoredKeyTables]
  have hne : ¬(getTableId act = "_grist_Views_section") := by
    rcases hacl with hacl | hacl <;> rw [hacl] <;> decide
  refine ⟨happly2, ?_, ?_⟩
  · rcases hacl with hacl | hacl <;> cases act <;>
      simp_all [CensorshipInfo.apply, getTableId, isDataAction,
        STRUCTURAL_TABLES, censoredKeyTables]
  · unfold filterOutgoingStructuralTables
    rw [hm]
    simp only [bind, Except.bind, pure, Except.pure]
    rw [hbuild]
    simp only [happly2, Bool.false_eq_true, if_false, if_neg hne]

/-- A viewer context without the AccessRules permission. -/
def aclViewerCtx : ViewerCtx := ⟨allowOracle, false, ⟨[]⟩⟩

/-- A structural-metadata map with all seven tables empty. -/
def emptyMeta : List (String × TableDataAction) :=
  STRUCTURAL_TABLES.map (fun t => (t, ⟨t, [], []⟩))

/-- The CensorshipInfo built on emptyMeta for a viewer without AccessRules. -/
def emptyCi : CensorshipInfo := ⟨[], [], [], [], [], false⟩

/-- A step carrying emptyMeta as its structural metadata. -/
def aclStep : ActionStep :=
  { action := .addTable "x", rowsBefore := none, rowsAfter := none,
    metaBefore := some emptyMeta, metaAfter := some emptyMeta, rulerOracle := none }

/-- C2: counterexample: for a viewer without the AccessRules permission,
CensorshipInfo.apply on a TableData action for _grist_ACLRules empties the
payload but returns FALSE, not true as the claim states. -/
theorem censorship_apply_acl_counterexample :
    emptyCi.apply (DocAction.tableData "_grist_ACLRules" [1] [("rule", [Cell.str "x"])]) =
      (DocAction.tableData "_grist_ACLRules" [] [], false) := by
  decide

theorem censorship_apply_acl_amended_witness :
    (emptyCi.apply (DocAction.bulkAddRecord "_grist_ACLRules" [1]
        [("rule", [Cell.str "x"])])).2 = false ∧
    filterOutgoingStructuralTables aclViewerCtx allowOracle aclStep
      (DocAction.bulkAddRecord "_grist_ACLRules" [1] [("rule", [Cell.str "x"])]) =
      .ok [] :=
  ⟨(censorship_apply_acl_amended aclViewerCtx allowOracle aclStep emptyCi emptyMeta
      (DocAction.bulkAddRecord "_grist_ACLRules" [1] [("rule", [Cell.str "x"])])
      rfl (by decide) rfl rfl rfl).1,
   (censorship_apply_acl_amended aclViewerCtx allowOracle aclStep emptyCi emptyMeta
      (DocAction.bulkAddRecord "_grist_ACLRules" [1] [("rule", [Cell.str "x"])])
      rfl (by decide) rfl rfl rfl).2.2⟩

theorem scan_eq_any_scanned (actions : List UserAction) (check : UserAction → Bool) :
    scanActionsRecursively actions check = (scannedActions actions).any check := by
  induction actions, check using scanActionsRecursively.induct with
  | case1 check => simp [scanActionsRecursively, scannedActions]
  | case2 check payload rest ih =>
      simp only [scanActionsRecursively, scannedActions]
      exact ih
  | case3 check payload rest ih =>
      simp only [scanActionsRecursively, scannedActions]
      exact ih
  | case4 check a rest h1 h2 hc =>
      rw [scanActionsRecursively, scannedActions]
      · simp [hc]
      · exact h1
      · exact h2
      · exact h1
      · exact h2
  | case5 check a rest h1 h2 hc ih =>
      rw [scanActionsRecursively, scannedActions]
      · simp [hc, ih]
      · exact h1
      · exact h2
      · exact h1
      · exact h2

theorem scanned_aclCheck_implies_deep (actions : List UserAction) :
    (scannedActions actions).any aclUserActionCheck = true →
    targetsAclDeepList actions = true := by
  induction actions using scannedActions.induct with
  | case1 => simp [scannedActions]
  | case2 payload rest ih =>
      intro h
      rw [scannedActions] at h
      simp only [targetsAclDeepList, targetsAclDeep, Bool.or_eq_true]
      exact Or.inl (ih h)
  | case3 payload rest ih =>
      intro h
      rw [scannedActions] at h
      simp only [targetsAclDeepList, targetsAclDeep, Bool.or_eq_true]
      exact Or.inl (ih h)
  | case4 a rest h1 h2 ih =>
      intro h
      rw [scannedActions] at h
      rotate_left
      · exact h1
      · exact h2
      simp only [List.any_cons, Bool.or_eq_true] at h
      simp only [targetsAclDeepList, Bool.or_eq_true]
      rcases h with h | h
      · left
        cases a with
        | prim n a1 => simpa [aclUserActionCheck, targetsAclDeep] using h
        | applyUndoActions p => exact absurd rfl (h1 p)
        | applyDocActions p => exact absurd rfl (h2 p)
      · exact Or.inr (ih h)

/-- C3: (amended) When no bundle is in progress, getGranularAccessForBundle
records the new bundle with hasDeliberateRuleChange computed by the
recursive scan, which examines the prefix of the user-action list up to and
including the first ApplyUndoActions/ApplyDocActions container: that
container is replaced by its recursively scanned payload and every action
after it is ignored. The flag equals "some examined action has
isAclTable(String(a[1]))", it is sound (when true, some action at some
depth does target _grist_ACLRules or _grist_ACLResources), but it is NOT
true whenever any action at any position targets an ACL table. -/
theorem getGranularAccessForBundle_scan_amended (st : EngineState) (s : Nat)
    (da u : List DocAction) (ua : List UserAction)
    (hb : st.activeBundle = none) :
    (getGranularAccessForBundle st s da u ua).map
        (fun st2 => st2.activeBundle.map (fun b => b.hasDeliberateRuleChange)) =
      .ok (some (scanActionsRecursively ua aclUserActionCheck)) ∧
    scanActionsRecursively ua aclUserActionCheck =
      (scannedActions ua).any aclUserActionCheck ∧
    (scanActionsRecursively ua aclUserActionCheck = true →
      targetsAclDeepList ua = true) := by
  refine ⟨?_, scan_eq_any_scanned ua aclUserActionCheck, ?_⟩
  · unfold getGranularAccessForBundle
    rw [hb]
    rfl
  · intro h
    apply scanned_aclCheck_implies_deep
    rw [← scan_eq_any_scanned]
    exact h

/-- A user-action list whose second action targets _grist_ACLRules, placed
after an empty ApplyDocActions container. -/
def deepAclActions : List UserAction :=
  [UserAction.applyDocActions [], UserAction.prim "UpdateRecord" "_grist_ACLRules"]

/-- C3: counterexample: the second action of the list updates
_grist_ACLRules, so per the claim hasDeliberateRuleChange should be true;
the scan stops at the first (empty) ApplyDocActions container and the
bundle records false. -/
theorem getGranularAccessForBundle_scan_counterexample :
    targetsAclDeepList deepAclActions = true ∧
    (getGranularAccessForBundle idleState 0 [] [] deepAclActions).map
        (fun st2 => st2.activeBundle.map (fun b => b.hasDeliberateRuleChange)) =
      .ok (some false) := by
  constructor
  · rfl
  · unfold getGranularAccessForBundle idleState
    simp [deepAclActions, scanActionsRecursively, Except.map]

theorem getGranularAccessForBundle_scan_amended_witness :
    (getGranularAccessForBundle idleState 1 [] [] [UserAction.prim "UpdateRecord" "_grist_ACLRules"]).map
        (fun st2 => st2.activeBundle.map (fun b => b.hasDeliberateRuleChange)) =
      .ok (some (scanActionsRecursively [UserAction.prim "UpdateRecord" "_grist_ACLRules"] aclUserActionCheck)) ∧
    scanActionsRecursively [UserAction.prim "UpdateRecord" "_grist_ACLRules"] aclUserActionCheck =
      (scannedActions [UserAction.prim "UpdateRecord" "_grist_ACLRules"]).any aclUserActionCheck ∧
    (scanActionsRecursively [UserAction.prim "UpdateRecord" "_grist_ACLRules"] aclUserActionCheck = true →
      targetsAclDeepList [UserAction.prim "UpdateRecord" "_grist_ACLRules"] = true) :=
  getGranularAccessForBundle_scan_amended idleState 1 [] []
    [UserAction.prim "UpdateRecord" "_grist_ACLRules"] rfl

/-- Modelled from the amended claim (not from the source): the divergence
that the user-attribute comparison actually detects — some row present in
the re-evaluated (after) attributes whose key was absent before the bundle
or mapped to a different value.  Rows present only before the bundle are
not a divergence in this sense. -/
def attrDivergenceAsAmended (prevMap : Option (List (Nat × UserAttributes)))
    (sess : Nat) (after : UserAttributes) : Prop :=
  ∃ m before, prevMap = some m ∧ m.lookup sess = some before ∧
    ∃ p ∈ after.rows, before.rows.lookup p.1 ≠ some p.2

/-- C5: (amended) During the outgoing filter, when a previous user-attribute
map was saved for the bundle and holds an entry for the session,
_checkUserAttributes compares it against the re-evaluated attributes and
throws NEED_RELOAD exactly when some AFTER-attribute row is new or changed
relative to the saved map; an attribute present before the bundle and
absent after it is NOT detected, and the filter completes normally. -/
theorem checkUserAttributes_amended (prevMap : Option (List (Nat × UserAttributes)))
    (sess : Nat) (after : UserAttributes) :
    (checkUserAttributes prevMap sess after =
        .error (.withCode "NEED_RELOAD" "document needs reload, user attributes changed")
      ↔ attrDivergenceAsAmended prevMap sess after) ∧
    (checkUserAttributes prevMap sess after = .ok ()
      ↔ ¬ attrDivergenceAsAmended prevMap sess after) := by
  unfold checkUserAttributes attrDivergenceAsAmended
  cases prevMap with
  | none => simp
  | some m =>
    cases hl : m.lookup sess with
    | none => simp [hl]
    | some before =>
      simp only [hl]
      have hany : (after.rows.any (fun p =>
          match before.rows.lookup p.1 with
          | none => true
          | some prev => decide (prev ≠ p.2)) = true) ↔
          ∃ p ∈ after.rows, before.rows.lookup p.1 ≠ some p.2 := by
        rw [List.any_eq_true]
        apply exists_congr
        intro p
        apply and_congr_right
        intro _
        cases hpl : before.rows.lookup p.1 with
        | none => simp [hpl]
        | some prev => simp [hpl]
      by_cases hA : after.rows.any (fun p =>
          match before.rows.lookup p.1 with
          | none => true
          | some prev => decide (prev ≠ p.2)) = true
      · have hdiv := hany.mp hA
        rw [if_pos hA]
        constructor
        · exact ⟨fun _ => ⟨m, before, rfl, hl, hdiv⟩, fun _ => rfl⟩
        · constructor
          · intro h
            exact absurd h (by simp)
          · intro h
            exact absurd ⟨m, before, rfl, hl, hdiv⟩ h
      · have hndiv : ¬ ∃ p ∈ after.rows, before.rows.lookup p.1 ≠ some p.2 :=
          fun hc => hA (hany.mpr hc)
        rw [if_neg hA]
        constructor
        · constructor
          · intro h
            exact absurd h (by simp)
          · rintro ⟨m2, before2, hm2, hb2, hp2⟩
            cases Option.some.inj hm2
            rw [hl] at hb2
            cases Option.some.inj hb2
            exact absurd hp2 hndiv
        · constructor
          · rintro _ ⟨m2, before2, hm2, hb2, hp2⟩
            cases Option.some.inj hm2
            rw [hl] at hb2
            cases Option.some.inj hb2
            exact absurd hp2 hndiv
          · intro _
            rfl

/-- A saved user-attribute map holding Team = 1 for session 0. -/
def prevAttrsMap : List (Nat × UserAttributes) := [(0, ⟨[("Team", "1")]⟩)]

/-- An engine state with rules, an empty bundle and the saved map above. -/
def cexC5State : EngineState :=
  { haveRules := true, userAttrTables := ["T"], userAttributesMap := [],
    prevUserAttributesMap := some prevAttrsMap, steps := some [],
    activeBundle := none, rulerCacheSessions := [] }

/-- C5: counterexample: the viewer's attribute Team = 1 existed before the
bundle and is absent from the re-evaluated attributes — a divergence per the
claim — yet the comparison succeeds and the outgoing filter completes
without NEED_RELOAD, because the loop only examines the after-attributes. -/
theorem checkUserAttributes_counterexample :
    checkUserAttributes (some prevAttrsMap) 0 ⟨[]⟩ = .ok () ∧
    filterOutgoingDocActions cexC5State allowCtx 0 [] = .ok [] := by
  constructor
  · rfl
  · rfl

/-- C6: (amended) For every bundle, appliedBundle sets the applied flag to
true; ONLY WHEN RULES EXIST (haveRules) it moves _userAttributesMap into
_prevUserAttributesMap and allocates a fresh map if some doc action touches
a user-attribute source table, and clears the Ruler's PermissionInfo cache
if either a user-attribute source table was touched or some doc action is a
schema action; when no rules exist it returns immediately after setting the
flag, leaving both caches as they were; no other engine state is modified. -/
theorem appliedBundle_amended (st : EngineState) (b : Bundle)
    (hb : st.activeBundle = some b) :
    (appliedBundle st).map (fun s => s.activeBundle) =
      .ok (some { b with applied := true }) ∧
    (appliedBundle st).map (fun s => s.haveRules) = .ok st.haveRules ∧
    (appliedBundle st).map (fun s => s.userAttrTables) = .ok st.userAttrTables ∧
    (appliedBundle st).map (fun s => s.steps) = .ok st.steps ∧
    (st.haveRules = false →
      (appliedBundle st).map (fun s => s.userAttributesMap) = .ok st.userAttributesMap ∧
      (appliedBundle st).map (fun s => s.prevUserAttributesMap) = .ok st.prevUserAttributesMap ∧
      (appliedBundle st).map (fun s => s.rulerCacheSessions) = .ok st.rulerCacheSessions) ∧
    (st.haveRules = true →
      (b.docActions.any (fun a => decide (getTableId a ∈ st.userAttrTables)) = true →
        (appliedBundle st).map (fun s => s.prevUserAttributesMap) =
          .ok (some st.userAttributesMap) ∧
        (appliedBundle st).map (fun s => s.userAttributesMap) = .ok []) ∧
      (b.docActions.any (fun a => decide (getTableId a ∈ st.userAttrTables)) = false →
        (appliedBundle st).map (fun s => s.prevUserAttributesMap) =
          .ok st.prevUserAttributesMap ∧
        (appliedBundle st).map (fun s => s.userAttributesMap) = .ok st.userAttributesMap) ∧
      ((b.docActions.any (fun a => decide (getTableId a ∈ st.userAttrTables)) ||
        b.docActions.any isSchemaAction) = true →
        (appliedBundle st).map (fun s => s.rulerCacheSessions) = .ok []) ∧
      ((b.docActions.any (fun a => decide (getTableId a ∈ st.userAttrTables)) ||
        b.docActions.any isSchemaAction) = false →
        (appliedBundle st).map (fun s => s.rulerCacheSessions) =
          .ok st.rulerCacheSessions)) := by
  unfold appliedBundle
  rw [hb]
  cases hhr : st.haveRules with
  | false =>
      simp [hhr, Except.map]
  | true =>
      cases hattr : b.docActions.any
          (fun a => decide (getTableId a ∈ st.userAttrTables)) with
      | false =>
          cases hschema : b.docActions.any isSchemaAction with
          | false => simp [hhr, hattr, hschema, Except.map]
          | true => simp [hhr, hattr, hschema, Except.map]
      | true =>
          simp [hhr, hattr, Except.map]

/-- An applied-pending bundle with one schema action. -/
def cexC6Bundle : Bundle :=
  { docSession := 0, userActions := [], docActions := [DocAction.addColumn "T" "c"],
    undo := [], applied := false, hasDeliberateRuleChange := false }

/-- An engine state with NO rules, a Ruler cache entry for session 7, and
the bundle above active. -/
def cexC6State : EngineState :=
  { haveRules := false, userAttrTables := [], userAttributesMap := [],
    prevUserAttributesMap := none, steps := none,
    activeBundle := some cexC6Bundle, rulerCacheSessions := [7] }

/-- C6: counterexample: the bundle carries a schema action (AddColumn), so
per the claim the Ruler cache must be cleared unconditionally; but the
engine has no rules, appliedBundle returns right after setting the applied
flag, and session 7 stays in the cache. -/
theorem appliedBundle_counterexample :
    (appliedBundle cexC6State).map (fun s => s.rulerCacheSessions) = .ok [7] ∧
    ¬ ((appliedBundle cexC6State).map (fun s => s.rulerCacheSessions) = .ok []) := by
  constructor
  · rfl
  · intro h
    have h2 : (Except.ok [7] : Except GError (List Nat)) = Except.ok [] := by
      rw [← h]
      rfl
    exact absurd (Except.ok.inj h2) (by decide)

/-- An engine state with rules and the schema-action bundle active. -/
def wC6State : EngineState :=
  { haveRules := true, userAttrTables := [], userAttributesMap := [],
    prevUserAttributesMap := none, steps := none,
    activeBundle := some cexC6Bundle, rulerCacheSessions := [7] }

theorem appliedBundle_amended_witness :
    (appliedBundle wC6State).map (fun s => s.activeBundle) =
      .ok (some { cexC6Bundle with applied := true }) ∧
    ((cexC6Bundle.docActions.any
        (fun a => decide (getTableId a ∈ wC6State.userAttrTables)) ||
      cexC6Bundle.docActions.any isSchemaAction) = true →
      (appliedBundle wC6State).map (fun s => s.rulerCacheSessions) = .ok []) :=
  ⟨(appliedBundle_amended wC6State cexC6Bundle rfl).1,
   ((appliedBundle_amended wC6State cexC6Bundle rfl).2.2.2.2.2 rfl).2.2.1⟩

/-- C8: (amended) filterOutgoingDocActions is idempotent on its image in the
shortcut regime — when no deliberate rule change is flagged and the document
has no rules, it returns its input unchanged, so a second application
returns the same output.  In general the property fails: with rules present
the filter pairs each action with its position as an index into the bundle's
per-action steps, and a filtered output no longer lines up with those steps
(a second application can even fail on an out-of-range step lookup). -/
theorem filterOutgoing_idempotent_amended (st : EngineState) (ctx : ViewerCtx)
    (sess : Nat) (docActions : List DocAction)
    (hd : (st.activeBundle.map (fun b => b.hasDeliberateRuleChange)).getD false = false)
    (hr : st.haveRules = false) :
    filterOutgoingDocActions st ctx sess docActions = .ok docActions ∧
    Except.bind (filterOutgoingDocActions st ctx sess docActions)
        (fun acts => filterOutgoingDocActions st ctx sess acts) =
      filterOutgoingDocActions st ctx sess docActions := by
  have h1 : filterOutgoingDocActions st ctx sess docActions = .ok docActions := by
    unfold filterOutgoingDocActions
    rw [hd, hr]
    simp
  refine ⟨h1, ?_⟩
  rw [h1]
  simp only [Except.bind]
  exact h1

/-- A PermOracle with mixed row access on table T: rows whose column n holds
the string a are denied, everything else is allowed. -/
def oracle8 : PermOracle :=
  { tableRead := fun t => if t = "T" then .mixed else .allow
    columnRead := fun _ _ => .allow
    rowTableRead := fun _ rec _ =>
      match rec with
      | some r => if r.cells.lookup "n" = some (.str "a") then .deny else .allow
      | none => .allow
    rowColumnRead := fun _ _ _ _ => .allow }

/-- A BulkUpdateRecord touching rows 1 and 2 of table T. -/
def a8 : DocAction := .bulkUpdateRecord "T" [1, 2] [("n", [.str "b", .str "x"])]

def rb8 : TableDataAction := ⟨"T", [1, 2], [("n", [.str "a", .str "x"])]⟩

def ra8 : TableDataAction := ⟨"T", [1, 2], [("n", [.str "b", .str "x"])]⟩

/-- The single step of the bundle for a8. -/
def step8 : ActionStep :=
  { action := a8, rowsBefore := some rb8, rowsAfter := some ra8,
    metaBefore := none, metaAfter := none, rulerOracle := none }

def bundle8 : Bundle :=
  { docSession := 0, userActions := [], docActions := [a8], undo := [],
    applied := true, hasDeliberateRuleChange := false }

/-- An engine state with rules and the one-step bundle for a8 active. -/
def st8 : EngineState :=
  { haveRules := true, userAttrTables := [], userAttributesMap := [],
    prevUserAttributesMap := none, steps := some [step8],
    activeBundle := some bundle8, rulerCacheSessions := [] }

def ctx8 : ViewerCtx := ⟨oracle8, true, ⟨[]⟩⟩

/-- C8: counterexample: with rules present, filtering [a8] splits the update
of newly-visible row 1 into a forced BulkAddRecord plus the pruned update of
row 2 — two actions.  Feeding that output back into the filter pairs the
second action with step index 1, which does not exist in the one-step
bundle, and the second application throws instead of returning the same
output. -/
theorem filterOutgoing_idempotent_counterexample :
    filterOutgoingDocActions st8 ctx8 0 [a8] =
      .ok [DocAction.bulkAddRecord "T" [1] [("n", [Cell.str "b"])],
           DocAction.bulkUpdateRecord "T" [2] [("n", [Cell.str "x"])]] ∧
    filterOutgoingDocActions st8 ctx8 0
        [DocAction.bulkAddRecord "T" [1] [("n", [Cell.str "b"])],
         DocAction.bulkUpdateRecord "T" [2] [("n", [Cell.str "x"])]] =
      .error (.plain "step lookup out of range") := by
  constructor
  · rfl
  · rfl

theorem filterOutgoing_idempotent_amended_witness :
    filterOutgoingDocActions idleState allowCtx 0 [DocAction.addTable "T"] =
      .ok [DocAction.addTable "T"] ∧
    Except.bind (filterOutgoingDocActions idleState allowCtx 0 [DocAction.addTable "T"])
        (fun acts => filterOutgoingDocActions idleState allowCtx 0 acts) =
      filterOutgoingDocActions idleState allowCtx 0 [DocAction.addTable "T"] :=
  filterOutgoing_idempotent_amended idleState allowCtx 0 [DocAction.addTable "T"] rfl rfl

/-- A PermOracle giving mixed table and row access with the column secret
denied at cell level. -/
def oracle10 : PermOracle :=
  { tableRead := fun _ => .mixed
    columnRead := fun _ _ => .allow
    rowTableRead := fun _ _ _ => .mixed
    rowColumnRead := fun _ c _ _ => if c = "secret" then .deny else .allow }

/-- An UpdateRecord carrying a secret cell and a public cell. -/
def a10 : DocAction := .updateRecord "T" 5 [("secret", .str "x"), ("pub", .str "y")]

def rb10 : TableDataAction := ⟨"T", [5], [("secret", [.str "x"]), ("pub", [.str "y"])]⟩

def step10 : ActionStep :=
  { action := a10, rowsBefore := some rb10, rowsAfter := some rb10,
    metaBefore := none, metaAfter := none, rulerOracle := none }

def st10 : EngineState :=
  { haveRules := true, userAttrTables := [], userAttributesMap := [],
    prevUserAttributesMap := none, steps := some [step10],
    activeBundle := none, rulerCacheSessions := [] }

def ctx10 : ViewerCtx := ⟨oracle10, true, ⟨[]⟩⟩

/-- C10: code bug: in the mixed-access branch, _pruneRows hands the
caller's own action object to _filterRowsAndCells; when the action is a
surviving singleton, _removeRows returns that same object and the cell
censor writes CENSORED into its column payload in place.  On this input the
filter returns the censored action, and the caller's input object now holds
CENSORED in its secret cell — contradicting the doc comment of
_filterOutgoingDocAction, "The action passed in is never modified", and the
claim. -/
theorem filterOutgoing_mutates_input :
    filterOutgoingDocActionInputAfter st10 ctx10 a10 0 =
      DocAction.updateRecord "T" 5
        [("secret", Cell.str "CENSORED"), ("pub", Cell.str "y")] ∧
    ¬ (filterOutgoingDocActionInputAfter st10 ctx10 a10 0 = a10) ∧
    filterOutgoingDocAction st10 ctx10 a10 0 =
      .ok [DocAction.updateRecord "T" 5
        [("secret", Cell.str "CENSORED"), ("pub", Cell.str "y")]] := by
  refine ⟨rfl, ?_, rfl⟩
  intro h
  have h2 : DocAction.updateRecord "T" 5
      [("secret", Cell.str "CENSORED"), ("pub", Cell.str "y")] = a10 := by
    rw [← h]
    rfl
  exact absurd h2 (by decide)

/-- A PermOracle denying row 5 of any table and allowing everything else
(absent rows are allowed). -/
def cexO : PermOracle :=
  { tableRead := fun _ => .mixed
    columnRead := fun _ _ => .allow
    rowTableRead := fun _ rec _ =>
      match rec with
      | some r => if r.id = 5 then .deny else .allow
      | none => .allow
    rowColumnRead := fun _ _ _ _ => .allow }

/-- Table T before the remove: the single row 5. -/
def rb1 : TableDataAction := ⟨"T", [5], [("s", [.str "x"])]⟩

/-- Table T after the remove: no rows. -/
def ra1 : TableDataAction := ⟨"T", [], [("s", [])]⟩

/-- C1: counterexample: row 5 is forbidden before and allowed after while
being removed — per the claim a removal of a (forbidden, allowed) id must be
stripped and re-emitted as a BulkAddRecord carrying the post-state row; the
code treats removes like kept ids minus the stripped one: the pruning
returns no actions at all, in particular no BulkAddRecord. -/
theorem pruneRows_partition_counterexample :
    pruneRows cexO (DocAction.removeRecord "T" 5) rb1 ra1 = .ok [] := by
  rfl

theorem pruneRows_partition_amended_witness :
    pruneRows oracle8 a8 rb8 ra8 =
      .ok (([some (DocAction.bulkAddRecord "T" [1] [("n", [Cell.str "b"])]),
             some (DocAction.bulkUpdateRecord "T" [2] [("n", [Cell.str "x"])]),
             (none : Option DocAction)].filterMap id).map
        (fun x => frcCensor oracle8 x ra8 ra8 false)) :=
  (pruneRows_partition_amended oracle8 a8 rb8 ra8 [1, 2] [1] []
      (some (DocAction.bulkAddRecord "T" [1] [("n", [Cell.str "b"])]))
      (some (DocAction.bulkUpdateRecord "T" [2] [("n", [Cell.str "x"])]))
      none
      rfl (fun _ _ _ => rfl) (by decide) rfl (by decide) (by decide)
      rfl rfl rfl rfl rfl rfl).2.1

end GAC
